import Mathlib

/-!
Verification of the clipboard-app ingestion pipeline (content classifier,
clipboard monitor, store upsert, image processor) against its specification.

The Rust sources are shallowly embedded: strings are `List Char`, machine
integers are `Nat`/`Int` with explicit `% 2^w` where wrap-around matters,
fallible operations return `Option`.  Regular expressions from the source are
embedded via a small Brzozowski-derivative matcher (`RE`) below.
-/

namespace Clipboard

/-! ### Character classes

The source uses Rust/regex character classes.  `\w`, `\s`, alphabetic and
digit classes are modelled at ASCII granularity (the classified clipboard
examples in the claims are ASCII; the Unicode extensions of these classes
never decide any claim).
-/

def isDigitC (c : Char) : Bool := '0' ≤ c && c ≤ '9'

def isLowerC (c : Char) : Bool := 'a' ≤ c && c ≤ 'z'

def isUpperC (c : Char) : Bool := 'A' ≤ c && c ≤ 'Z'

def isAlphaC (c : Char) : Bool := isLowerC c || isUpperC c

def isAlnumC (c : Char) : Bool := isAlphaC c || isDigitC c

def isHexC (c : Char) : Bool :=
  isDigitC c || ('a' ≤ c && c ≤ 'f') || ('A' ≤ c && c ≤ 'F')

/-- Rust `char::is_whitespace` / regex `\s`, at ASCII granularity. -/
def isWsC (c : Char) : Bool :=
  c = ' ' || c = '\t' || c = '\n' || c = '\r' || c = '\x0b' || c = '\x0c'

/-- regex `\w` (word character), at ASCII granularity. -/
def isWordC (c : Char) : Bool := isAlnumC c || c = '_'

/-! ### A tiny regex engine (Brzozowski derivatives)

`RE` is the abstract syntax of the regular expressions appearing in
`content_detector.rs`; `rmatch` decides a full (anchored) match, `rhead`
an `^`-anchored match and `rsearch` an unanchored `is_match` search.
-/

inductive RE where
  | emp : RE
  | eps : RE
  | lit : Char → RE
  | cls : (Char → Bool) → RE
  | cat : RE → RE → RE
  | alt : RE → RE → RE
  | star : RE → RE

namespace RE

def nullable : RE → Bool
  | emp => false
  | eps => true
  | lit _ => false
  | cls _ => false
  | cat r₁ r₂ => nullable r₁ && nullable r₂
  | alt r₁ r₂ => nullable r₁ || nullable r₂
  | star _ => true

/-- Smart `alt`: drops `emp` branches to keep derivatives small. -/
def altS : RE → RE → RE
  | emp, r => r
  | r, emp => r
  | r₁, r₂ => alt r₁ r₂

/-- Smart `cat`: collapses `emp` and `eps` components. -/
def catS : RE → RE → RE
  | emp, _ => emp
  | _, emp => emp
  | eps, r => r
  | r, eps => r
  | r₁, r₂ => cat r₁ r₂

def deriv : RE → Char → RE
  | emp, _ => emp
  | eps, _ => emp
  | lit c, a => if a = c then eps else emp
  | cls p, a => if p a then eps else emp
  | cat r₁ r₂, a =>
      if nullable r₁ then altS (catS (deriv r₁ a) r₂) (deriv r₂ a)
      else catS (deriv r₁ a) r₂
  | alt r₁ r₂, a => altS (deriv r₁ a) (deriv r₂ a)
  | star r, a => catS (deriv r a) (star r)

/-- Full anchored match (`^pat$`). -/
def rmatch (r : RE) : List Char → Bool
  | [] => nullable r
  | a :: s => rmatch (deriv r a) s

/-- `^`-anchored match: some prefix of the input matches. -/
def rhead (r : RE) : List Char → Bool
  | [] => nullable r
  | a :: s => nullable r || rhead (deriv r a) s

/-- Unanchored `Regex::is_match`: some substring matches. -/
def rsearch (r : RE) : List Char → Bool
  | [] => nullable r
  | a :: s => rhead r (a :: s) || rsearch r s

/-- `r?` -/
def opt (r : RE) : RE := alt eps r

/-- `r{n}` (exactly `n` copies). -/
def rep : Nat → RE → RE
  | 0, _ => eps
  | n + 1, r => cat r (rep n r)

/-- `r{0,n}` -/
def upto : Nat → RE → RE
  | 0, _ => eps
  | n + 1, r => alt eps (cat r (upto n r))

/-- `r{m,n}` -/
def between (m n : Nat) (r : RE) : RE := cat (rep m r) (upto (n - m) r)

/-- `r{m,}` -/
def atLeast (m : Nat) (r : RE) : RE := cat (rep m r) (star r)

/-- `r+` -/
def plus (r : RE) : RE := cat r (star r)

/-- Concatenation of a literal character sequence. -/
def str : List Char → RE
  | [] => eps
  | c :: cs => cat (lit c) (str cs)

/-- `mustContain r c = true` guarantees every string accepted by `r`
contains the character `c` (soundness proved below).  `emp` accepts
nothing, so it vacuously returns `true`. -/
def mustContain : RE → Char → Bool
  | emp, _ => true
  | eps, _ => false
  | lit c', c => c' = c
  | cls _, _ => false
  | cat r₁ r₂, c => mustContain r₁ c || mustContain r₂ c
  | alt r₁ r₂, c => mustContain r₁ c && mustContain r₂ c
  | star _, _ => false

theorem not_nullable_of_mustContain {r : RE} {c : Char}
    (h : mustContain r c = true) : nullable r = false := by
  induction r with
  | emp => rfl
  | eps => simp [mustContain] at h
  | lit c' => rfl
  | cls p => simp [mustContain] at h
  | cat r₁ r₂ ih₁ ih₂ =>
      simp only [mustContain, Bool.or_eq_true] at h
      rcases h with h | h
      · simp [nullable, ih₁ h]
      · simp [nullable, ih₂ h]
  | alt r₁ r₂ ih₁ ih₂ =>
      simp only [mustContain, Bool.and_eq_true] at h
      simp [nullable, ih₁ h.1, ih₂ h.2]
  | star r ih => simp [mustContain] at h

theorem mustContain_altS {r₁ r₂ : RE} {c : Char}
    (h₁ : mustContain r₁ c = true) (h₂ : mustContain r₂ c = true) :
    mustContain (altS r₁ r₂) c = true := by
  cases r₁ <;> cases r₂ <;> simp_all [altS, mustContain]

theorem mustContain_catS_left {r₁ : RE} (r₂ : RE) {c : Char}
    (h₁ : mustContain r₁ c = true) :
    mustContain (catS r₁ r₂) c = true := by
  cases r₁ <;> cases r₂ <;> simp_all [catS, mustContain]

theorem mustContain_catS_right (r₁ : RE) {r₂ : RE} {c : Char}
    (h₂ : mustContain r₂ c = true) :
    mustContain (catS r₁ r₂) c = true := by
  cases r₁ <;> cases r₂ <;> simp_all [catS, mustContain]

theorem mustContain_deriv {r : RE} {c a : Char}
    (h : mustContain r c = true) (hne : a ≠ c) :
    mustContain (deriv r a) c = true := by
  induction r with
  | emp => rfl
  | eps => rfl
  | lit c' =>
      simp only [mustContain, decide_eq_true_eq] at h
      subst h
      simp [deriv, if_neg hne, mustContain]
  | cls p => simp [mustContain] at h
  | cat r₁ r₂ ih₁ ih₂ =>
      simp only [mustContain, Bool.or_eq_true] at h
      rcases h with h | h
      · have hn : nullable r₁ = false := not_nullable_of_mustContain h
        simp only [deriv]
        rw [if_neg (by simp [hn])]
        exact mustContain_catS_left _ (ih₁ h)
      · simp only [deriv]
        by_cases hn : nullable r₁ = true
        · rw [if_pos hn]
          exact mustContain_altS (mustContain_catS_right _ h) (ih₂ h)
        · rw [if_neg hn]
          exact mustContain_catS_right _ h
  | alt r₁ r₂ ih₁ ih₂ =>
      simp only [mustContain, Bool.and_eq_true] at h
      exact mustContain_altS (ih₁ h.1) (ih₂ h.2)
  | star r ih => simp [mustContain] at h

theorem rmatch_mem {c : Char} {s : List Char} :
    ∀ {r : RE}, mustContain r c = true → rmatch r s = true → c ∈ s := by
  induction s with
  | nil =>
      intro r h hm
      rw [rmatch] at hm
      rw [not_nullable_of_mustContain h] at hm
      exact absurd hm (by simp)
  | cons a s ih =>
      intro r h hm
      rw [rmatch] at hm
      by_cases hac : a = c
      · exact hac ▸ List.mem_cons_self a s
      · exact List.mem_cons_of_mem a (ih (mustContain_deriv h hac) hm)

theorem rhead_mem {c : Char} {s : List Char} :
    ∀ {r : RE}, mustContain r c = true → rhead r s = true → c ∈ s := by
  induction s with
  | nil =>
      intro r h hm
      rw [rhead] at hm
      rw [not_nullable_of_mustContain h] at hm
      exact absurd hm (by simp)
  | cons a s ih =>
      intro r h hm
      rw [rhead] at hm
      rw [not_nullable_of_mustContain h] at hm
      simp only [Bool.false_or] at hm
      by_cases hac : a = c
      · exact hac ▸ List.mem_cons_self a s
      · exact List.mem_cons_of_mem a (ih (mustContain_deriv h hac) hm)

theorem rsearch_mem {c : Char} {s : List Char} :
    ∀ {r : RE}, mustContain r c = true → rsearch r s = true → c ∈ s := by
  induction s with
  | nil =>
      intro r h hm
      rw [rsearch] at hm
      rw [not_nullable_of_mustContain h] at hm
      exact absurd hm (by simp)
  | cons a s ih =>
      intro r h hm
      rw [rsearch] at hm
      rcases Bool.or_eq_true _ _ |>.mp hm with hm | hm
      · exact rhead_mem h hm
      · exact List.mem_cons_of_mem a (ih h hm)

/-- Contrapositive form used on strings known not to contain `c`. -/
theorem rhead_eq_false {r : RE} {c : Char} {s : List Char}
    (h : mustContain r c = true) (hc : c ∉ s) : rhead r s = false := by
  cases hp : rhead r s
  · rfl
  · exact absurd (rhead_mem h hp) hc

theorem rmatch_eq_false {r : RE} {c : Char} {s : List Char}
    (h : mustContain r c = true) (hc : c ∉ s) : rmatch r s = false := by
  cases hp : rmatch r s
  · rfl
  · exact absurd (rmatch_mem h hp) hc

end RE

/-! ### String helpers (Rust `str` operations on `List Char`) -/

/-- Rust `str::trim` (Unicode whitespace modelled at ASCII granularity). -/
def trimL (l : List Char) : List Char :=
  ((l.dropWhile isWsC).reverse.dropWhile isWsC).reverse

/-- Rust `str::starts_with`. -/
def isPrefixL : List Char → List Char → Bool
  | [], _ => true
  | _ :: _, [] => false
  | a :: as, b :: bs => a = b && isPrefixL as bs

/-- Substring search (unanchored literal `Regex::is_match` / `str::contains`). -/
def containsSub (needle : List Char) : List Char → Bool
  | [] => isPrefixL needle []
  | c :: rest => isPrefixL needle (c :: rest) || containsSub needle rest

/-- Rust `str::len` (UTF-8 byte length). -/
def byteLenL (l : List Char) : Nat := l.foldr (fun c n => c.utf8Size + n) 0

/-- Rust `str::trim_end_matches('=')`. -/
def trimEndEq (l : List Char) : List Char :=
  (l.reverse.dropWhile (· = '=')).reverse

/-- Value of a digit string. -/
def digitsVal (l : List Char) : Nat :=
  l.foldl (fun acc c => acc * 10 + (c.toNat - '0'.toNat)) 0

/-- Rust `str::parse::<i64>`: optional sign, one or more ASCII digits,
result must fit in `i64`. -/
def parseI64L (l : List Char) : Option Int :=
  let neg : Bool := l.head? = some '-'
  let rest := if l.head? = some '+' ∨ l.head? = some '-' then l.drop 1 else l
  if rest ≠ [] ∧ rest.all isDigitC then
    let v : Int := if neg then -(digitsVal rest : Int) else (digitsVal rest : Int)
    if -(2 ^ 63) ≤ v ∧ v < 2 ^ 63 then some v else none
  else none

/-- Rust `str::parse::<u8>` on a capture of 1–3 digits. -/
def parseU8L (l : List Char) : Option Nat :=
  if l ≠ [] ∧ l.all isDigitC ∧ digitsVal l ≤ 255 then some (digitsVal l) else none

/-- Rust `str::parse::<f32>` restricted to `[\d.]+` captures: digits with at
most one decimal point and at least one digit.  The numeric value is modelled
exactly as a rational; `f32` rounding is not modelled (no claim depends on a
value within an ulp of the 0/1 alpha bounds). -/
def parseNonNegFloatL (l : List Char) : Option ℚ :=
  let intPart := l.takeWhile isDigitC
  let rest := l.dropWhile isDigitC
  match rest with
  | [] => if intPart ≠ [] then some (digitsVal intPart : ℚ) else none
  | '.' :: frac =>
      if frac.all isDigitC ∧ (intPart ≠ [] ∨ frac ≠ []) then
        some ((digitsVal intPart : ℚ) +
          (digitsVal frac : ℚ) / ((10 : ℚ) ^ frac.length))
      else none
  | _ => none

/-! ### Regular expressions of `content_detector.rs`, as `RE` values -/

namespace Regexes

open RE

def digit : RE := cls isDigitC

def wsP : RE := cls isWsC

/-- `^[a-zA-Z0-9][a-zA-Z0-9-]{0,61}\.[a-zA-Z]{2,}` (bare-domain heuristic,
`^`-anchored prefix match). -/
def domainRE : RE :=
  cat (cls isAlnumC)
    (cat (upto 61 (cls fun c => isAlnumC c || c = '-'))
      (cat (lit '.') (atLeast 2 (cls isAlphaC))))

/-- IPv4 octet `(?:25[0-5]|2[0-4][0-9]|[01]?[0-9][0-9]?)`. -/
def octet : RE :=
  alt (cat (str ['2', '5']) (cls fun c => '0' ≤ c && c ≤ '5'))
    (alt (cat (lit '2') (cat (cls fun c => '0' ≤ c && c ≤ '4') digit))
      (cat (opt (cls fun c => c = '0' || c = '1')) (cat digit (opt digit))))

/-- `^(?:octet\.){3}octet$` (full-anchor IPv4). -/
def ipv4RE : RE := cat (rep 3 (cat octet (lit '.'))) octet

/-- `[0-9a-fA-F]{1,4}` -/
def h16 : RE := between 1 4 (cls isHexC)

/-- IPv4 tail inside the IPv6 regex:
`(25[0-5]|(2[0-4]|1{0,1}[0-9]){0,1}[0-9])`. -/
def octet6 : RE :=
  alt (cat (str ['2', '5']) (cls fun c => '0' ≤ c && c ≤ '5'))
    (cat (opt (alt (cat (lit '2') (cls fun c => '0' ≤ c && c ≤ '4'))
                   (cat (opt (lit '1')) digit)))
      digit)

/-- `((octet6)\.){3,3}(octet6)` -/
def ipv4Tail : RE := cat (rep 3 (cat octet6 (lit '.'))) octet6

/-- The full-anchor IPv6 regex of `is_ip_address`, alternative by
alternative in source order. -/
def ipv6RE : RE :=
  alt (cat (rep 7 (cat h16 (lit ':'))) h16)
  (alt (cat (between 1 7 (cat h16 (lit ':'))) (lit ':'))
  (alt (cat (between 1 6 (cat h16 (lit ':'))) (cat (lit ':') h16))
  (alt (cat (between 1 5 (cat h16 (lit ':'))) (between 1 2 (cat (lit ':') h16)))
  (alt (cat (between 1 4 (cat h16 (lit ':'))) (between 1 3 (cat (lit ':') h16)))
  (alt (cat (between 1 3 (cat h16 (lit ':'))) (between 1 4 (cat (lit ':') h16)))
  (alt (cat (between 1 2 (cat h16 (lit ':'))) (between 1 5 (cat (lit ':') h16)))
  (alt (cat h16 (cat (lit ':') (between 1 6 (cat (lit ':') h16))))
  (alt (cat (lit ':') (alt (between 1 7 (cat (lit ':') h16)) (lit ':')))
  (alt (cat (str ['f', 'e', '8', '0', ':'])
         (cat (upto 4 (cat (lit ':') (upto 4 (cls isHexC))))
           (cat (lit '%') (plus (cls isAlnumC)))))
  (alt (cat (str [':', ':'])
         (cat (opt (cat (str ['f', 'f', 'f', 'f'])
                     (cat (opt (cat (lit ':') (between 1 4 (lit '0'))))
                       (lit ':'))))
           ipv4Tail))
  (cat (between 1 4 (cat h16 (lit ':'))) (cat (lit ':') ipv4Tail))))))))))))

/-- `^[\w._%+-]+@[\w.-]+\.[\w]{2,}$` (email, full match). -/
def emailRE : RE :=
  cat (plus (cls fun c => isWordC c || c = '.' || c = '_' || c = '%' || c = '+' || c = '-'))
    (cat (lit '@')
      (cat (plus (cls fun c => isWordC c || c = '.' || c = '-'))
        (cat (lit '.') (atLeast 2 (cls isWordC)))))

/-- `^hsl\(\s*(\d{1,3})\s*,\s*(\d{1,3})%\s*,\s*(\d{1,3})%\s*\)$` -/
def hslRE : RE :=
  cat (str ['h', 's', 'l', '('])
    (cat (star wsP) (cat (between 1 3 digit)
      (cat (star wsP) (cat (lit ',')
        (cat (star wsP) (cat (between 1 3 digit) (cat (lit '%')
          (cat (star wsP) (cat (lit ',')
            (cat (star wsP) (cat (between 1 3 digit) (cat (lit '%')
              (cat (star wsP) (lit ')'))))))))))))))

/-- ISO-8601: `^\d{4}-\d{2}-\d{2}T\d{2}:\d{2}:\d{2}(?:\.\d{3})?(?:Z|[+-]\d{2}:\d{2})?$` -/
def isoRE : RE :=
  cat (rep 4 digit) (cat (lit '-') (cat (rep 2 digit) (cat (lit '-')
    (cat (rep 2 digit) (cat (lit 'T') (cat (rep 2 digit) (cat (lit ':')
      (cat (rep 2 digit) (cat (lit ':') (cat (rep 2 digit)
        (cat (opt (cat (lit '.') (rep 3 digit)))
          (opt (alt (lit 'Z')
            (cat (cls fun c => c = '+' || c = '-')
              (cat (rep 2 digit) (cat (lit ':') (rep 2 digit)))))))))))))))))

/-- Loose date: dash or slash separated `\d{4} \d{2} \d{2}` with optional
trailing `\s+\d{2}:\d{2}(?::\d{2})?`. -/
def dateRE : RE :=
  cat (rep 4 digit) (cat (cls fun c => c = '-' || c = '/')
    (cat (rep 2 digit) (cat (cls fun c => c = '-' || c = '/')
      (cat (rep 2 digit)
        (opt (cat (plus wsP) (cat (rep 2 digit) (cat (lit ':')
          (cat (rep 2 digit) (opt (cat (lit ':') (rep 2 digit))))))))))))

theorem domainRE_dot : RE.mustContain domainRE '.' = true := by decide

theorem ipv4RE_dot : RE.mustContain ipv4RE '.' = true := by decide

theorem ipv6RE_colon : RE.mustContain ipv6RE ':' = true := by decide

theorem emailRE_at : RE.mustContain emailRE '@' = true := by decide

/-- Markdown pattern 1: `^#{1,6}\s+` -/
def md1 : RE := cat (between 1 6 (lit '#')) (plus wsP)

/-- `[^*]` etc.: a negated class matches any character but the listed one. -/
def notC (x : Char) : RE := cls (· ≠ x)

/-- regex `.` (any character except newline). -/
def dotC : RE := notC '\n'

/-- Markdown pattern 2: bold `\*\*[^*]+\*\*` -/
def md2 : RE := cat (str ['*', '*']) (cat (plus (notC '*')) (str ['*', '*']))

/-- Markdown pattern 3: italic `\*[^*]+\*` -/
def md3 : RE := cat (lit '*') (cat (plus (notC '*')) (lit '*'))

/-- Markdown pattern 4: link `\[.+\]\(.+\)` -/
def md4 : RE :=
  cat (lit '[') (cat (plus dotC)
    (cat (lit ']') (cat (lit '(') (cat (plus dotC) (lit ')')))))

/-- Markdown pattern 5: image `!\[.*\]\(.+\)` -/
def md5 : RE :=
  cat (lit '!') (cat (lit '[') (cat (star dotC)
    (cat (lit ']') (cat (lit '(') (cat (plus dotC) (lit ')'))))))

/-- Markdown pattern 6: bullet list `^[-*+]\s+` -/
def md6 : RE := cat (cls fun c => c = '-' || c = '*' || c = '+') (plus wsP)

/-- Markdown pattern 7: ordered list `^\d+\.\s+` -/
def md7 : RE := cat (plus digit) (cat (lit '.') (plus wsP))

/-- Markdown pattern 8: quote `^>\s+` -/
def md8 : RE := cat (lit '>') (plus wsP)

/-- Markdown pattern 10: inline code -/
def md10 : RE := cat (lit '`') (cat (plus (notC '`')) (lit '`'))

/-- Java pattern, last alternative: `\w+\s*\[\s*\]` -/
def javaArrRE : RE :=
  cat (plus (cls isWordC)) (cat (star wsP) (cat (lit '[') (cat (star wsP) (lit ']'))))

/-- CSS `^\.[\w-]+\s*\{` -/
def cssClassRE : RE :=
  cat (lit '.') (cat (plus (cls fun c => isWordC c || c = '-'))
    (cat (star wsP) (lit '{')))

/-- CSS `^#[\w-]+\s*\{` -/
def cssIdRE : RE :=
  cat (lit '#') (cat (plus (cls fun c => isWordC c || c = '-'))
    (cat (star wsP) (lit '{')))

end Regexes

/-! ### JSON validity (model of `serde_json::from_str::<Value>`)

Standard JSON grammar; the serde recursion limit (128) and surrogate-pair
validation inside `\u` escapes are not modelled (no claim exercises them).
-/

def skipWsJ (l : List Char) : List Char :=
  l.dropWhile fun c => c = ' ' || c = '\t' || c = '\n' || c = '\r'

def stripLit : List Char → List Char → Option (List Char)
  | [], l => some l
  | _ :: _, [] => none
  | c :: cs, a :: as => if a = c then stripLit cs as else none

/-- Consume the rest of a JSON string after the opening quote. -/
def jsonStringRest : List Char → Option (List Char)
  | [] => none
  | '"' :: r => some r
  | '\\' :: r =>
      match r with
      | [] => none
      | e :: r2 =>
          if e = '"' ∨ e = '\\' ∨ e = '/' ∨ e = 'b' ∨ e = 'f' ∨ e = 'n' ∨
             e = 'r' ∨ e = 't' then
            jsonStringRest r2
          else if e = 'u' then
            match r2 with
            | a :: b :: c :: d :: r3 =>
                if isHexC a ∧ isHexC b ∧ isHexC c ∧ isHexC d then
                  jsonStringRest r3
                else none
            | _ => none
          else none
  | c :: r => if c.toNat < 32 then none else jsonStringRest r

def jsonExpRest (l : List Char) : Option (List Char) :=
  let l1 := match l with
    | '+' :: r => r
    | '-' :: r => r
    | r => r
  if l1.takeWhile isDigitC = [] then none else some (l1.dropWhile isDigitC)

def jsonExp (l : List Char) : Option (List Char) :=
  match l with
  | 'e' :: r => jsonExpRest r
  | 'E' :: r => jsonExpRest r
  | _ => some l

def jsonFrac (l : List Char) : Option (List Char) :=
  match l with
  | '.' :: r =>
      if r.takeWhile isDigitC = [] then none else jsonExp (r.dropWhile isDigitC)
  | _ => jsonExp l

/-- JSON number: `-?(0|[1-9][0-9]*)(\.[0-9]+)?([eE][+-]?[0-9]+)?`. -/
def jsonNumber (l : List Char) : Option (List Char) :=
  let l1 := match l with
    | '-' :: r => r
    | r => r
  match l1 with
  | '0' :: r => jsonFrac r
  | c :: r => if '1' ≤ c ∧ c ≤ '9' then jsonFrac (r.dropWhile isDigitC) else none
  | [] => none

mutual

def jsonValue : Nat → List Char → Option (List Char)
  | 0, _ => none
  | fuel + 1, l =>
    match l with
    | '{' :: r =>
        match skipWsJ r with
        | '}' :: r1 => some r1
        | r1 => jsonMembers fuel r1
    | '[' :: r =>
        match skipWsJ r with
        | ']' :: r1 => some r1
        | r1 => jsonElems fuel r1
    | '"' :: r => jsonStringRest r
    | 't' :: r => stripLit ['r', 'u', 'e'] r
    | 'f' :: r => stripLit ['a', 'l', 's', 'e'] r
    | 'n' :: r => stripLit ['u', 'l', 'l'] r
    | _ => jsonNumber l

def jsonMembers : Nat → List Char → Option (List Char)
  | 0, _ => none
  | fuel + 1, l =>
    match l with
    | '"' :: r =>
        match jsonStringRest r with
        | some r1 =>
            match skipWsJ r1 with
            | ':' :: r2 =>
                match jsonValue fuel (skipWsJ r2) with
                | some r3 =>
                    match skipWsJ r3 with
                    | ',' :: r4 => jsonMembers fuel (skipWsJ r4)
                    | '}' :: r4 => some r4
                    | _ => none
                | none => none
            | _ => none
        | none => none
    | _ => none

def jsonElems : Nat → List Char → Option (List Char)
  | 0, _ => none
  | fuel + 1, l =>
    match jsonValue fuel l with
    | some r =>
        match skipWsJ r with
        | ',' :: r1 => jsonElems fuel (skipWsJ r1)
        | ']' :: r1 => some r1
        | _ => none
    | none => none

end

/-- `serde_json::from_str::<Value>(l).is_ok()`. -/
def jsonValid (l : List Char) : Bool :=
  match jsonValue (l.length + 1) (skipWsJ l) with
  | some rest => skipWsJ rest = []
  | none => false

/-! ### Base64 decoding

Model of `base64::engine::general_purpose::STANDARD.decode`: standard
alphabet, canonical padding required, non-zero trailing bits rejected
(the crate's default `GeneralPurposeConfig`).  Bytes are `Nat < 256`.
-/

def b64Index (c : Char) : Option Nat :=
  if isUpperC c then some (c.toNat - 65)
  else if isLowerC c then some (c.toNat - 97 + 26)
  else if isDigitC c then some (c.toNat - 48 + 52)
  else if c = '+' then some 62
  else if c = '/' then some 63
  else none

def b64DecodeChunks : List Char → Option (List Nat)
  | [] => some []
  | a :: b :: c :: d :: rest =>
      match b64Index a, b64Index b with
      | some va, some vb =>
          if c = '=' then
            if d = '=' ∧ rest = [] ∧ vb % 16 = 0 then
              some [va * 4 + vb / 16]
            else none
          else
            match b64Index c with
            | some vc =>
                if d = '=' then
                  if rest = [] ∧ vc % 4 = 0 then
                    some [va * 4 + vb / 16, vb % 16 * 16 + vc / 4]
                  else none
                else
                  match b64Index d with
                  | some vd =>
                      match b64DecodeChunks rest with
                      | some tl =>
                          some ([va * 4 + vb / 16, vb % 16 * 16 + vc / 4,
                                 vc % 4 * 64 + vd] ++ tl)
                      | none => none
                  | none => none
            | none => none
      | _, _ => none
  | _ => none

def b64Decode (l : List Char) : Option (List Nat) := b64DecodeChunks l

/-! ### Data model of `content_detector.rs` -/

inductive ContentSubType where
  | plainText
  | url
  | ipAddress
  | email
  | color
  | code
  | command
  | timestamp
  | json
  | markdown
  | base64
deriving DecidableEq, Repr

structure UrlParts where
  protocol : List Char
  host : List Char
  path : List Char
  query_params : List (List Char × List Char)
deriving DecidableEq

structure ColorFormats where
  hex : Option (List Char)
  rgb : Option (List Char)
  rgba : Option (List Char)
  hsl : Option (List Char)
deriving DecidableEq

structure TimestampFormats where
  unix_ms : Option Int
  iso8601 : Option (List Char)
  date_string : Option (List Char)
deriving DecidableEq

/-- `encoding_efficiency` is an `f32` in the source; its exact rational
value is used here (no claim depends on float rounding of the ratio). -/
structure Base64Metadata where
  estimated_original_size : Nat
  encoded_size : Nat
  content_hint : Option (List Char)
  encoding_efficiency : ℚ
deriving DecidableEq

structure ContentMetadata where
  detected_language : Option (List Char) := none
  url_parts : Option UrlParts := none
  color_formats : Option ColorFormats := none
  timestamp_formats : Option TimestampFormats := none
  base64_metadata : Option Base64Metadata := none
deriving DecidableEq

/-! ### `ContentDetector` sub-detectors -/

/-- `ContentDetector::is_url`. -/
def isUrlL (l : List Char) : Bool :=
  if isPrefixL "http://".data l || isPrefixL "https://".data l ||
     isPrefixL "ftp://".data l then
    let withoutProtocol :=
      if isPrefixL "https://".data l then l.drop 8
      else if isPrefixL "http://".data l then l.drop 7
      else if isPrefixL "ftp://".data l then l.drop 6
      else l
    !withoutProtocol.isEmpty
  else if '@' ∈ l then false
  else RE.rhead Regexes.domainRE l

/-- `ContentDetector::parse_url_metadata`.  The structured parse delegates
to the external `url` crate (not part of this repository); no claim reads
the URL metadata, so the parse outcome is modelled as the unpopulated
metadata record that the source produces on parse failure. -/
def parseUrlMetadataL (_l : List Char) : ContentMetadata := {}

/-- `ContentDetector::is_ip_address`. -/
def isIpAddressL (l : List Char) : Bool :=
  RE.rmatch Regexes.ipv4RE l || RE.rmatch Regexes.ipv6RE l

/-- `ContentDetector::is_email`. -/
def isEmailL (l : List Char) : Bool :=
  RE.rmatch Regexes.emailRE l

/-- Captures of `^rgba?\(\s*(\d{1,3})\s*,\s*(\d{1,3})\s*,\s*(\d{1,3})\s*(?:,\s*([\d.]+))?\s*\)$`.
Hand-translated: every capture is a maximal run of its character class, and
adjacent classes are disjoint, so the regex match is deterministic. -/
def rgbCaptures (l : List Char) :
    Option (List Char × List Char × List Char × Option (List Char)) :=
  match stripLit ['r', 'g', 'b'] l with
  | none => none
  | some r0 =>
      let r1 := match r0 with
        | 'a' :: r => r
        | r => r
      match r1 with
      | '(' :: r2 =>
          let r2 := r2.dropWhile isWsC
          let c1 := r2.takeWhile isDigitC
          let r3 := (r2.dropWhile isDigitC).dropWhile isWsC
          if c1 = [] ∨ 3 < c1.length then none
          else
            match r3 with
            | ',' :: r4 =>
                let r4 := r4.dropWhile isWsC
                let c2 := r4.takeWhile isDigitC
                let r5 := (r4.dropWhile isDigitC).dropWhile isWsC
                if c2 = [] ∨ 3 < c2.length then none
                else
                  match r5 with
                  | ',' :: r6 =>
                      let r6 := r6.dropWhile isWsC
                      let c3 := r6.takeWhile isDigitC
                      let r7 := (r6.dropWhile isDigitC).dropWhile isWsC
                      if c3 = [] ∨ 3 < c3.length then none
                      else
                        match r7 with
                        | ',' :: r8 =>
                            let r8 := r8.dropWhile isWsC
                            let c4 := r8.takeWhile fun c => isDigitC c || c = '.'
                            let r9 := (r8.dropWhile fun c => isDigitC c || c = '.').dropWhile isWsC
                            if c4 = [] then none
                            else
                              match r9 with
                              | [')'] => some (c1, c2, c3, some c4)
                              | _ => none
                        | [')'] => some (c1, c2, c3, none)
                        | _ => none
                  | _ => none
            | _ => none
      | _ => none

/-- The `rgb`/`rgba`/`hsl` part of `ContentDetector::detect_color`. -/
def detectColorRgbHsl (l : List Char) : Option ColorFormats :=
  match rgbCaptures l with
  | some (c1, c2, c3, alphaCap) =>
      match parseU8L c1, parseU8L c2, parseU8L c3 with
      | some _, some _, some _ =>
          match alphaCap with
          | some c4 =>
              match parseNonNegFloatL c4 with
              | some q =>
                  if 0 ≤ q ∧ q ≤ 1 then
                    some { hex := none, rgb := none, rgba := some l, hsl := none }
                  else none
              | none => none
          | none => some { hex := none, rgb := some l, rgba := none, hsl := none }
      | _, _, _ => none
  | none =>
      if RE.rmatch Regexes.hslRE l then
        some { hex := none, rgb := none, rgba := none, hsl := some l }
      else none

/-- `ContentDetector::detect_color`.  Rust indexes `&text[1..]` and measures
byte lengths; on the all-hex acceptance path these coincide with the
character view used here. -/
def detectColorL (l : List Char) : Option ColorFormats :=
  if l.head? = some '#' ∧ 4 ≤ byteLenL l then
    let hexPart := l.drop 1
    if (byteLenL hexPart = 3 ∨ byteLenL hexPart = 6) ∧ hexPart.all isHexC then
      some { hex := some l, rgb := none, rgba := none, hsl := none }
    else detectColorRgbHsl l
  else detectColorRgbHsl l

/-- `ContentDetector::is_json`. -/
def isJsonL (l : List Char) : Bool :=
  let t := trimL l
  if (t.head? = some '{' ∧ t.getLast? = some '}') ∨
     (t.head? = some '[' ∧ t.getLast? = some ']') then
    jsonValid t
  else false

/-- The command-prefix table of `ContentDetector::is_command`. -/
def commands : List (List Char) :=
  ["git ", "npm ", "yarn ", "pnpm ", "docker ", "kubectl ", "cargo ",
   "python ", "pip ", "brew ", "apt ", "yum ", "ls", "cd ", "mkdir ",
   "rm ", "cp ", "mv ", "cat ", "grep ", "sed ", "awk ", "curl ",
   "wget ", "ssh "].map String.data

/-- `ContentDetector::is_command`. -/
def isCommandL (l : List Char) : Bool :=
  commands.any fun cmd => isPrefixL cmd l

/-- The regex part (ISO-8601 / loose date) of `detect_timestamp`. -/
def detectTimestampRegexL (l : List Char) : Option TimestampFormats :=
  if RE.rmatch Regexes.isoRE l then
    some { unix_ms := none, iso8601 := some l, date_string := none }
  else if RE.rmatch Regexes.dateRE l then
    some { unix_ms := none, iso8601 := none, date_string := some l }
  else none

/-- `ContentDetector::detect_timestamp`. -/
def detectTimestampL (l : List Char) : Option TimestampFormats :=
  match parseI64L l with
  | some num =>
      if 946684800 ≤ num ∧ num < 4102444800 then
        some { unix_ms := some (num * 1000), iso8601 := none, date_string := none }
      else if 946684800000 ≤ num ∧ num < 7258118400000 then
        some { unix_ms := some num, iso8601 := none, date_string := none }
      else detectTimestampRegexL l
  | none => detectTimestampRegexL l

/-- `ContentDetector::is_markdown`: ten patterns, `^`-anchored ones as
prefix matches, the rest as unanchored searches. -/
def isMarkdownL (l : List Char) : Bool :=
  RE.rhead Regexes.md1 l || RE.rsearch Regexes.md2 l ||
  RE.rsearch Regexes.md3 l || RE.rsearch Regexes.md4 l ||
  RE.rsearch Regexes.md5 l || RE.rhead Regexes.md6 l ||
  RE.rhead Regexes.md7 l || RE.rhead Regexes.md8 l ||
  containsSub ['`', '`', '`'] l || RE.rsearch Regexes.md10 l

/-! ### `detect_code_language`

The per-language signature regexes use `\b` word boundaries, which the
derivative engine does not model; keyword alternatives under `\b` are
hand-translated as boundary-checked substring searches, boundary-free
alternatives as plain substring searches or `RE` searches.
-/

/-- A `\b` boundary holds next to a word character iff the neighbour (if
any) is a non-word character. -/
def boundaryOk : Option Char → Bool
  | none => true
  | some c => !isWordC c

/-- Search for keyword `kw` with a `\b` before it and, when `both`, a `\b`
after it; `prev` is the character preceding the current position. -/
def wordSearchAux (kw : List Char) (both : Bool) : Option Char → List Char → Bool
  | _, [] => false
  | prev, c :: rest =>
      (boundaryOk prev && isPrefixL kw (c :: rest) &&
        (!both || boundaryOk ((c :: rest).drop kw.length).head?)) ||
      wordSearchAux kw both (some c) rest

def wordSearch (kw : String) (both : Bool) (l : List Char) : Bool :=
  wordSearchAux kw.data both none l

/-- Strip the first matching alternative of a keyword list. -/
def stripAny (kws : List (List Char)) (l : List Char) : Option (List Char) :=
  match kws with
  | [] => none
  | kw :: rest =>
      match stripLit kw l with
      | some r => some r
      | none => stripAny rest l

/-- Java alternative `\b(?:public|private|protected)\s+(?:class|static|final)`
tested at one position. -/
def javaAccessAt (l : List Char) : Bool :=
  match stripAny (["public", "private", "protected"].map String.data) l with
  | some r =>
      decide (r.takeWhile isWsC ≠ []) &&
      (["class", "static", "final"].map String.data).any
        (fun kw => isPrefixL kw (r.dropWhile isWsC))
  | none => false

def javaAccessScan : Option Char → List Char → Bool
  | _, [] => false
  | prev, c :: rest =>
      (boundaryOk prev && javaAccessAt (c :: rest)) ||
      javaAccessScan (some c) rest

/-- Java alternative `\bfinal\s+\w+` tested at one position. -/
def javaFinalAt (l : List Char) : Bool :=
  match stripLit "final".data l with
  | some r =>
      decide (r.takeWhile isWsC ≠ []) &&
      (((r.dropWhile isWsC).head?).map isWordC).getD false
  | none => false

def javaFinalScan : Option Char → List Char → Bool
  | _, [] => false
  | prev, c :: rest =>
      (boundaryOk prev && javaFinalAt (c :: rest)) ||
      javaFinalScan (some c) rest

def matchesRust (l : List Char) : Bool :=
  ["fn", "impl", "struct", "enum", "match", "trait", "pub", "use", "mut"].any
    fun k => wordSearch k true l

def matchesJava (l : List Char) : Bool :=
  javaAccessScan none l ||
  containsSub "static void main".data l ||
  containsSub "import java".data l ||
  javaFinalScan none l ||
  RE.rsearch Regexes.javaArrRE l

def matchesPython (l : List Char) : Bool :=
  ["def ", "import ", "from ", "if __name__", "print("].any
    fun k => wordSearch k false l

def matchesJavascript (l : List Char) : Bool :=
  (["function", "const", "let", "var", "async", "await", "console.log"].any
    fun k => wordSearch k true l) ||
  containsSub ['=', '>'] l

def matchesC (l : List Char) : Bool :=
  containsSub "#include".data l || containsSub "int main".data l ||
  wordSearch "void" true l || wordSearch "printf" true l ||
  wordSearch "scanf" true l

def matchesSql (l : List Char) : Bool :=
  ["SELECT", "FROM", "WHERE", "INSERT", "UPDATE", "DELETE", "CREATE TABLE"].any
    fun k => wordSearch k true l

def matchesHtml (l : List Char) : Bool :=
  ["<html", "<div", "<span", "<body", "<head", "<script", "<style"].any
    fun k => containsSub k.data l

def matchesCss (l : List Char) : Bool :=
  RE.rhead Regexes.cssClassRE l || RE.rhead Regexes.cssIdRE l ||
  containsSub "color:".data l || containsSub "background:".data l ||
  containsSub "margin:".data l || containsSub "padding:".data l

/-- `ContentDetector::detect_code_language`: first matching language wins. -/
def detectCodeLanguageL (l : List Char) : Option (List Char) :=
  if matchesRust l then some "rust".data
  else if matchesJava l then some "java".data
  else if matchesPython l then some "python".data
  else if matchesJavascript l then some "javascript".data
  else if matchesC l then some "c".data
  else if matchesSql l then some "sql".data
  else if matchesHtml l then some "html".data
  else if matchesCss l then some "css".data
  else none

/-! ### `detect_base64` -/

/-- The curated common-short-English-word exclusion list of
`detect_base64`, verbatim (duplicates included). -/
def commonWords : List (List Char) :=
  ["the", "and", "for", "are", "but", "not", "you", "all", "can", "had",
   "her", "was", "one", "our", "out", "day", "get", "has", "him", "his",
   "how", "its", "may", "new", "now", "old", "see", "two", "who", "boy",
   "did", "man", "car", "run", "way", "use", "yes", "too", "big", "end",
   "far", "off", "own", "say", "she", "try", "ask", "job", "let", "put",
   "sit", "top", "win", "cut", "lot", "eat", "god", "hit", "lot", "son",
   "got", "red", "hot", "air", "bit", "box", "buy", "eye", "few", "fix",
   "key", "lay", "leg", "low", "map", "mix", "oil", "pay", "pop", "raw",
   "row", "sad", "sea", "set", "six", "sky", "tax", "tea", "ten", "tie",
   "tip", "war", "wet", "add", "bad", "bag", "bar", "bat", "bed", "bid",
   "bus", "cat", "cop", "cup", "die", "dig", "dog", "dot", "dry", "ear",
   "egg", "fan", "fly", "fun", "gap", "gas", "gun", "hat", "ice", "kid",
   "lab", "lap", "lie", "lip", "log", "mad", "mom", "mud", "net", "pan",
   "pen", "pet", "pie", "pin", "pot", "rat", "red", "rid", "rip", "rob",
   "rod", "run", "sad", "sit", "sun", "tap", "toy", "van", "web", "win",
   "zip"].map String.data

/-- `ContentDetector::analyze_decoded_content`, text/zero-byte fallthrough. -/
def analyzeTextPart (data : List Nat) : Option (List Char) :=
  if data.all (fun b =>
       b < 128 && (!(b < 32 || b = 127) ||
         (b = 9 || b = 10 || b = 11 || b = 12 || b = 13 || b = 32))) ∧
     10 < data.length then
    some "文本内容".data
  else if 100 < data.length ∧
      data.length < 10 * (data.filter (· = 0)).length then
    some "二进制数据".data
  else some "未知格式".data

/-- `ContentDetector::analyze_decoded_content`. -/
def analyzeDecodedContent (data : List Nat) : Option (List Char) :=
  if 4 ≤ data.length then
    if data.take 4 = [0x89, 0x50, 0x4E, 0x47] then
      some "PNG图片".data
    else if data.take 3 = [0xFF, 0xD8, 0xFF] then some "JPEG图片".data
    else if data.take 4 = [0x25, 0x50, 0x44, 0x46] then some "PDF文档".data
    else if data.take 4 = [0x47, 0x49, 0x46, 0x38] then some "GIF图片".data
    else if data.take 4 = [0x50, 0x4B, 0x03, 0x04] ∨
            data.take 4 = [0x50, 0x4B, 0x05, 0x06] then
      some "ZIP压缩包".data
    else analyzeTextPart data
  else analyzeTextPart data

/-- The whitespace-stripped text (`cleaned` in `detect_base64`). -/
def b64Cleaned (l : List Char) : List Char := l.filter fun c => !isWsC c

/-- Fraction of base64-alphabet characters among all characters
(`base64_ratio`, an `f32` in the source, carried as an exact rational;
`mkRat` keeps it kernel-computable). -/
def b64CharFrac (l : List Char) : ℚ :=
  mkRat ((l.filter fun c => isAlnumC c || c = '+' || c = '/' || c = '=').length)
    l.length

/-- `required_ratio`: 1.0 for short strings (≤ 40 bytes), 0.95 otherwise. -/
def b64RequiredFrac (l : List Char) : ℚ :=
  if byteLenL l ≤ 40 then 1 else mkRat 95 100

/-- `((decoded_size * 4).div_ceil(3) + 3) & !3`. -/
def b64ExpectedEncodedSize (decodedSize : Nat) : Nat :=
  ((decodedSize * 4 + 2) / 3 + 3) / 4 * 4

/-- `size_ratio = encoded_size as f32 / expected_encoded_size as f32`,
carried exactly as a rational. -/
def b64SizeFrac (encodedSize decodedSize : Nat) : ℚ :=
  mkRat encodedSize (b64ExpectedEncodedSize decodedSize)

/-- `1.0 - tolerance`, where the tolerance is 0.5 for decoded sizes of at
most 10 bytes and 0.2 otherwise. -/
def b64LowerBound (decodedSize : Nat) : ℚ :=
  if decodedSize ≤ 10 then mkRat 1 2 else mkRat 4 5

/-- `1.0 + tolerance`. -/
def b64UpperBound (decodedSize : Nat) : ℚ :=
  if decodedSize ≤ 10 then mkRat 3 2 else mkRat 6 5

/-- `ContentDetector::detect_base64`.  Rust `str::len` byte counts are
`byteLenL`; `chars().count()` is `List.length`; `is_short` is
`byteLenL l ≤ 40`, inlined at each of its uses. -/
def detectBase64L (l : List Char) : Option Base64Metadata :=
  if byteLenL l < 4 then none
  else if isPrefixL "http://".data l || isPrefixL "https://".data l ||
          isPrefixL "data:".data l then none
  else if b64CharFrac l < b64RequiredFrac l then none
  else if byteLenL l ≤ 40 ∧ (l.map Char.toLower) ∈ commonWords then none
  else if byteLenL l ≤ 40 ∧ l.all isLowerC ∧ 3 ≤ byteLenL l then none
  else if byteLenL l ≤ 40 ∧ byteLenL l ≤ 8 ∧ l.dedup.length ≤ 2 then none
  else if 100 < byteLenL l ∧ l.dedup.length ≤ 3 then none
  else if byteLenL l / 50 < (l.filter (· = '\n')).length then none
  else if byteLenL (trimEndEq (b64Cleaned l)) % 4 = 1 then none
  else
    match b64Decode (b64Cleaned l) with
    | none => none
    | some decoded =>
        if b64SizeFrac (byteLenL (b64Cleaned l)) decoded.length <
             b64LowerBound decoded.length ∨
           b64UpperBound decoded.length <
             b64SizeFrac (byteLenL (b64Cleaned l)) decoded.length then none
        else
          some { estimated_original_size := decoded.length
                 encoded_size := byteLenL (b64Cleaned l)
                 content_hint := analyzeDecodedContent decoded
                 encoding_efficiency :=
                   b64SizeFrac (byteLenL (b64Cleaned l)) decoded.length }

/-! ### The classifier cascade -/

/-- `ContentDetector::detect`. -/
def detectL (l : List Char) : ContentSubType × Option ContentMetadata :=
  let t := trimL l
  if isUrlL t then (.url, some (parseUrlMetadataL t))
  else if isIpAddressL t then (.ipAddress, none)
  else if isEmailL t then (.email, none)
  else
    match detectColorL t with
    | some cf => (.color, some { color_formats := some cf })
    | none =>
      if isJsonL t then (.json, none)
      else if isCommandL t then (.command, none)
      else
        match detectTimestampL t with
        | some tf => (.timestamp, some { timestamp_formats := some tf })
        | none =>
          if isMarkdownL t then (.markdown, none)
          else
            match detectBase64L t with
            | some bm => (.base64, some { base64_metadata := some bm })
            | none =>
              match detectCodeLanguageL t with
              | some lang => (.code, some { detected_language := some lang })
              | none => (.plainText, none)

def detect (s : String) : ContentSubType × Option ContentMetadata :=
  detectL s.data

/-- The `snake_case` serde name of a subtype
(`serde_json::to_value(&subtype)` in `check_clipboard`). -/
def subtypeStr : ContentSubType → List Char
  | .plainText => "plain_text".data
  | .url => "url".data
  | .ipAddress => "ip_address".data
  | .email => "email".data
  | .color => "color".data
  | .code => "code".data
  | .command => "command".data
  | .timestamp => "timestamp".data
  | .json => "json".data
  | .markdown => "markdown".data
  | .base64 => "base64".data

/-! ### Configuration (`config/mod.rs`) -/

/-- The fields of `AppConfig` consulted by the monitor.  `excluded_apps_v2`
entries carry a name and a bundle id, but `is_app_excluded` compares only
the bundle id, which is what is kept here.  `max_size_mb` is an `f64`
configuration value, carried as an exact rational. -/
structure AppConfigM where
  excluded_apps : List (List Char)
  excluded_apps_v2 : List (List Char)
  max_size_mb : ℚ
deriving DecidableEq

/-- `ConfigManager::is_app_excluded`. -/
def isAppExcluded (cfg : AppConfigM) (bundleId : List Char) : Bool :=
  cfg.excluded_apps.any (fun e => e = bundleId) ||
  cfg.excluded_apps_v2.any (fun e => e = bundleId)

/-- `ConfigManager::is_text_size_valid`: `bytes / (1024*1024) <= max_size_mb`.
The `f64` division by the power of two is exact for any realistic length,
so the rational comparison is faithful. -/
def isTextSizeValid (cfg : AppConfigM) (content : List Char) : Bool :=
  decide (mkRat (byteLenL content) (1024 * 1024) ≤ cfg.max_size_mb)

/-! ### The clipboard monitor (`monitor.rs`) -/

structure AppInfo where
  name : List Char
  bundle_id : Option (List Char)
deriving DecidableEq

/-- Metadata payload of a dispatched entry.  The source serialises it to a
JSON string (`serde_json::to_string`); the serialised record itself is
carried here. -/
inductive EntryMetadata where
  | text : ContentMetadata → EntryMetadata
  | image : (width : Nat) → (height : Nat) → (file_size : Nat) → EntryMetadata
deriving DecidableEq

/-- A `ClipboardEntry` as assembled by `check_clipboard` before dispatch
(`id`/`created_at` are filled from a UUID and the wall clock, which are
irrelevant to the monitor claims and omitted from this view). -/
structure MonitorEntry where
  content_type : List Char
  content_data : Option (List Char)
  content_hash : List Char
  source_app : Option (List Char)
  file_path : Option (List Char)
  content_subtype : Option (List Char)
  metadata : Option EntryMetadata
  app_bundle_id : Option (List Char)
deriving DecidableEq

/-- The `data:image/...;base64,` echo-loop guard. -/
def isB64ImageUrl (t : List Char) : Bool :=
  isPrefixL "data:image/".data t && containsSub ";base64,".data t

/-- One text pass of `ClipboardMonitor::check_clipboard`: takes the
remembered last hash and the clipboard text, returns the new slot value
and the dispatched entry, if any.  `hashFn` abstracts the SHA-256 hex
digest of the trimmed text's bytes. -/
def textTick (hashFn : List Char → List Char) (cfg : AppConfigM)
    (appInfo : Option AppInfo) (last : Option (List Char))
    (text : List Char) : Option (List Char) × Option MonitorEntry :=
  let trimmed := trimL text
  if trimmed.isEmpty then (last, none)
  else if isB64ImageUrl trimmed then (last, none)
  else
    let hash := hashFn trimmed
    if last = some hash then (last, none)
    else
      -- `should_send`: the slot is overwritten before the config checks run
      let veto : Bool :=
        match appInfo with
        | some info =>
            match info.bundle_id with
            | some b => isAppExcluded cfg b || !isTextSizeValid cfg trimmed
            | none => false
        | none => false
      if veto then (some hash, none)
      else
        let det := detectL trimmed
        (some hash,
         some { content_type := "text".data
                content_data := some trimmed
                content_hash := hash
                source_app := appInfo.map (·.name)
                file_path := none
                content_subtype := some (subtypeStr det.1)
                metadata := det.2.map EntryMetadata.text
                app_bundle_id := appInfo.bind (·.bundle_id) })

/-- Result of image processing as seen by the monitor (path under `imgs/`,
final dimensions and stored byte size). -/
structure ImgSaved where
  width : Nat
  height : Nat
  file_path : List Char
  actual_size : Nat
deriving DecidableEq

/-- One image pass of `check_clipboard`.  Image decoding/saving
(`process_image_with_dimensions` with its auto-detect fallback) performs
file I/O and is abstracted as its outcome `procOutcome`; both source
dispatch paths build the entry the same way. -/
def imageTick (hashFn : List Nat → List Char) (cfg : AppConfigM)
    (appInfo : Option AppInfo) (last : Option (List Char))
    (bytes : List Nat) (procOutcome : Option ImgSaved) :
    Option (List Char) × Option MonitorEntry :=
  let hash := hashFn bytes
  if last = some hash then (last, none)
  else
    let veto : Bool :=
      match appInfo with
      | some info =>
          match info.bundle_id with
          | some b => isAppExcluded cfg b
          | none => false
      | none => false
    if veto then (some hash, none)
    else
      match procOutcome with
      | some img =>
          (some hash,
           some { content_type := "image".data
                  content_data := some img.file_path
                  content_hash := hash
                  source_app := appInfo.map (·.name)
                  file_path := some img.file_path
                  content_subtype := none
                  metadata := some (.image img.width img.height img.actual_size)
                  app_bundle_id := appInfo.bind (·.bundle_id) })
      | none => (some hash, none)

/-- Fold `textTick` over a sequence of observed clipboard texts, collecting
the dispatched entries. -/
def runTexts (hashFn : List Char → List Char) (cfg : AppConfigM)
    (appInfo : Option AppInfo) :
    Option (List Char) → List (List Char) → List MonitorEntry
  | _, [] => []
  | last, t :: rest =>
      match textTick hashFn cfg appInfo last t with
      | (last1, some e) => e :: runTexts hashFn cfg appInfo last1 rest
      | (last1, none) => runTexts hashFn cfg appInfo last1 rest

/-! ### The store upsert (`state.rs`, `start_database_save_task`) -/

/-- One stored row of `clipboard_entries` (also the shape of an incoming
draft).  `created_at` is `i64`, `copy_count` is `i32`; both are carried as
`Int` (no claim approaches the word-size bounds). -/
structure DbEntry where
  id : List Char
  content_hash : List Char
  content_type : List Char
  content_data : Option (List Char)
  source_app : Option (List Char)
  created_at : Int
  copy_count : Int
  file_path : Option (List Char)
  is_favorite : Bool
  content_subtype : Option (List Char)
  metadata : Option (List Char)
  app_bundle_id : Option (List Char)
deriving DecidableEq

/-- `SELECT id, copy_count FROM clipboard_entries WHERE content_hash = ?`
with `fetch_optional`: the first matching row. -/
def findByHash (db : List DbEntry) (h : List Char) : Option DbEntry :=
  db.find? fun r => r.content_hash = h

/-- One iteration of the database save task: the upsert-by-hash of a
received draft.  Returns the updated table (an `UPDATE ... WHERE id = ?`
touches every row with the found id) and the entry republished to the
frontend. -/
def upsertEntry (db : List DbEntry) (e : DbEntry) : List DbEntry × DbEntry :=
  match findByHash db e.content_hash with
  | some row =>
      let newCount := row.copy_count + 1
      (db.map fun r =>
        if r.id = row.id then
          { r with copy_count := newCount, created_at := e.created_at }
        else r,
       { e with id := row.id, copy_count := newCount })
  | none =>
      (db ++ [{ e with copy_count := 1 }], { e with copy_count := 1 })

/-! ### The image processor (`processor.rs`) -/

/-- An in-memory RGBA image as built by `image::ImageBuffer::from_raw`
and saved as PNG (`DynamicImage::save`; the PNG encode/decode round-trip
preserves dimensions and is modelled as the identity on them). -/
structure StoredImage where
  width : Nat
  height : Nat
  pixels : List Nat
deriving DecidableEq

/-- `image::ImageBuffer::<Rgba<u8>, _>::from_raw`: succeeds iff the
container holds at least `width*height*4` samples (library contract:
`None` if the container is not big enough). -/
def fromRawRgba (width height : Nat) (data : List Nat) : Option StoredImage :=
  if 4 * width * height ≤ data.length then some ⟨width, height, data⟩ else none

/-- Swap bytes 0 and 2 of every 4-byte pixel (BGRA → RGBA). -/
def bgraSwap : List Nat → List Nat
  | b :: g :: r :: a :: rest => r :: g :: b :: a :: bgraSwap rest
  | rest => rest

/-- The alpha-channel sampling of `process_raw_rgba_data`: alpha of the
first `min(len/4, 100)` pixels; swap if fewer than half are 0 or 255. -/
def needsBgraSwap (data : List Nat) : Bool :=
  let sampleSize := min (data.length / 4) 100
  let alphas := (List.range sampleSize).map fun i => data.getD (4 * i + 3) 0
  (alphas.filter fun a => a = 255 || a = 0).length < sampleSize / 2

/-- `ContentProcessor::process_raw_rgba_data`, up to the PNG write: build
the pixel buffer (converted data first, transposed dimensions on failure,
unswapped data as a last resort). -/
def processRawRgba (data : List Nat) (width height : Nat) : Option StoredImage :=
  let swapped := needsBgraSwap data
  let converted := if swapped then bgraSwap data else data
  match fromRawRgba width height converted with
  | some img => some img
  | none =>
      match (if height ≠ width then fromRawRgba height width converted else none) with
      | some img => some img
      | none => if swapped then fromRawRgba width height data else none

inductive IngestPath where
  | rawFast
  | standard
deriving DecidableEq

/-- The branch decision of `process_image_with_dimensions`:
`expected_size = (width * height * 4) as usize` is computed in `u32`
arithmetic (release-mode wrap-around, hence the `% 2^32`), and the packed
RGBA fast path is taken iff the buffer length equals it; otherwise the
data goes to `process_image` (codec sniffing / dimension inference). -/
def ingestPath (dataLen width height : Nat) : IngestPath :=
  if dataLen = width * height * 4 % 2 ^ 32 then .rawFast else .standard

/-- The curated common-resolution table of `detect_raw_rgba_data`. -/
def commonDimensions : List (Nat × Nat) :=
  [(2880, 1800), (2560, 1600), (2304, 1440), (2048, 1280),
   (1920, 1200), (1680, 1050), (1440, 900), (1280, 800),
   (1920, 1080), (2560, 1440), (3840, 2160),
   (1366, 768), (1280, 720), (1600, 900),
   (800, 600), (1024, 768), (640, 480),
   (1024, 600), (800, 480), (600, 400), (400, 300),
   (300, 200), (200, 150), (150, 100), (100, 100),
   (375, 812), (414, 896), (390, 844), (428, 926),
   (512, 512), (1024, 1024), (256, 256), (128, 128),
   (64, 64), (32, 32), (16, 16)]

def scaleFactors : List Nat := [2, 3, 4, 5, 6, 7, 8, 10, 12, 15, 20]

/-- Step 1.5 of `detect_raw_rgba_data`: scaled variants of the table. -/
def scaledMatch (pixelCount : Nat) : Option (Nat × Nat) :=
  commonDimensions.findSome? fun p =>
    scaleFactors.findSome? fun s =>
      let w := p.1 / s
      let h := p.2 / s
      if 0 < w ∧ 0 < h ∧ w * h = pixelCount then some (w, h)
      else
        let w2 := p.1 * s
        let h2 := p.2 * s
        if w2 * h2 = pixelCount then some (w2, h2) else none

def commonRatios : List ℚ := [16 / 9, 4 / 3, 3 / 2, 1, 2 / 3, 3 / 4, 9 / 16]

/-- Step 3: factor search over widths within ±100 of `√pixelCount`
(aspect ratios compared as exact rationals; the source compares `f64`
quotients, identical away from rounding boundaries no claim exercises). -/
def factorSearchNear (pixelCount sqrtInt : Nat) : Option (Nat × Nat) :=
  ((List.range (sqrtInt + 100 - (sqrtInt - 100) + 1)).map
      fun i => sqrtInt - 100 + i).findSome? fun width =>
    if width = 0 then none
    else if pixelCount % width = 0 then
      let height := pixelCount / width
      let rat : ℚ := (width : ℚ) / (height : ℚ)
      if 1 / 10 ≤ rat ∧ rat ≤ 10 then
        if commonRatios.any fun t => |rat - t| < 1 / 20 then some (width, height)
        else if 10 ≤ width ∧ 10 ≤ height then some (width, height)
        else none
      else none
    else none

/-- Step 4: the wider factor search between `√(pc)/2` and `√(2·pc)`. -/
def factorSearchWide (pixelCount : Nat) : Option (Nat × Nat) :=
  let maxWidth := Nat.sqrt (pixelCount * 2)
  let minWidth := Nat.sqrt pixelCount / 2
  ((List.range (maxWidth - minWidth + 1)).map fun i => minWidth + i).findSome?
    fun width =>
      if width = 0 then none
      else if pixelCount % width = 0 then
        let height := pixelCount / width
        if 10 ≤ height ∧ 10 ≤ width then
          let rat : ℚ := (width : ℚ) / (height : ℚ)
          if 1 / 20 ≤ rat ∧ rat ≤ 20 then some (width, height) else none
        else none
      else none

/-- `ContentProcessor::detect_raw_rgba_data`.  The `f64` square roots
(truncated to `u32`) are modelled as `Nat.sqrt`; only inputs far beyond
any claim could distinguish the two. -/
def detectRawRgbaData (data : List Nat) : Option (Nat × Nat) :=
  if data.length < 16 ∨ data.length % 4 ≠ 0 then none
  else
    let pixelCount := data.length / 4
    match commonDimensions.find? (fun p => p.1 * p.2 = pixelCount) with
    | some p => some p
    | none =>
      match scaledMatch pixelCount with
      | some p => some p
      | none =>
        let sqrtInt := Nat.sqrt pixelCount
        if sqrtInt * sqrtInt = pixelCount then some (sqrtInt, sqrtInt)
        else
          match factorSearchNear pixelCount sqrtInt with
          | some p => some p
          | none =>
            match factorSearchWide pixelCount with
            | some p => some p
            | none =>
                if 100 < pixelCount ∧ pixelCount < 1000000 then
                  some (pixelCount, 1)
                else none

/-! ## Claim statements and proofs -/

/-- The rule ordering as the specification states it: an ordered cascade
Url, IpAddress, Email, Color, Json, Command, Timestamp, Markdown, Base64,
Code, PlainText, the first matching rule deciding the subtype.  This
definition follows the spec's words; `detectL_eq_specOrder` compares it to
the source translation `detectL`. -/
def specCascadeSubtype (l : List Char) : ContentSubType :=
  let t := trimL l
  if isUrlL t then .url
  else if isIpAddressL t then .ipAddress
  else if isEmailL t then .email
  else if (detectColorL t).isSome then .color
  else if isJsonL t then .json
  else if isCommandL t then .command
  else if (detectTimestampL t).isSome then .timestamp
  else if isMarkdownL t then .markdown
  else if (detectBase64L t).isSome then .base64
  else if (detectCodeLanguageL t).isSome then .code
  else .plainText

set_option maxHeartbeats 1000000 in
theorem detectL_eq_specOrder (l : List Char) :
    (detectL l).1 = specCascadeSubtype l := by
  unfold detectL specCascadeSubtype
  dsimp only
  generalize trimL l = t
  by_cases h1 : isUrlL t = true <;> simp [h1]
  by_cases h2 : isIpAddressL t = true <;> simp [h2]
  by_cases h3 : isEmailL t = true <;> simp [h3]
  cases h4 : detectColorL t <;> simp [h4]
  by_cases h5 : isJsonL t = true <;> simp [h5]
  by_cases h6 : isCommandL t = true <;> simp [h6]
  cases h7 : detectTimestampL t <;> simp [h7]
  by_cases h8 : isMarkdownL t = true <;> simp [h8]
  cases h9 : detectBase64L t <;> simp [h9]
  cases h10 : detectCodeLanguageL t <;> simp [h10]

def subtypesAll : List ContentSubType :=
  [.url, .ipAddress, .email, .color, .json, .command, .timestamp,
   .markdown, .base64, .code, .plainText]

set_option maxHeartbeats 1000000 in
theorem detectL_fst_mem (l : List Char) : (detectL l).1 ∈ subtypesAll := by
  unfold detectL
  dsimp only
  generalize trimL l = t
  by_cases h1 : isUrlL t = true <;> simp [h1, subtypesAll]
  by_cases h2 : isIpAddressL t = true <;> simp [h2, subtypesAll]
  by_cases h3 : isEmailL t = true <;> simp [h3, subtypesAll]
  cases h4 : detectColorL t <;> simp [h4, subtypesAll]
  by_cases h5 : isJsonL t = true <;> simp [h5, subtypesAll]
  by_cases h6 : isCommandL t = true <;> simp [h6, subtypesAll]
  cases h7 : detectTimestampL t <;> simp [h7, subtypesAll]
  by_cases h8 : isMarkdownL t = true <;> simp [h8, subtypesAll]
  cases h9 : detectBase64L t <;> simp [h9, subtypesAll]
  cases h10 : detectCodeLanguageL t <;> simp [h10, subtypesAll]

/-- C1: `classify` runs its rules in the fixed order Url, IpAddress, Email,
Color, Json, Command, Timestamp, Markdown, Base64, Code, PlainText; for
every input the result is the subtype of the first rule that matches
(later rules never override); in particular
`classify('{"url":"https://x.com"}')` returns Json, not Url. -/
theorem classify_ordered_cascade :
    (∀ s : String, (detect s).1 = specCascadeSubtype s.data) ∧
    detect "\x7b\"url\":\"https://x.com\"\x7d" = (.json, none) := by
  constructor
  · intro s
    exact detectL_eq_specOrder s.data
  · decide

/-- C2: `classify` is a total, deterministic function: every input string
(empty, whitespace-only, arbitrary Unicode) yields a
(subtype, optional metadata) pair, one of the eleven fixed subtypes, and
identical inputs yield identical results. -/
theorem classify_total_deterministic (s1 s2 : String) (h : s1 = s2) :
    detect s1 = detect s2 ∧ (detect s1).1 ∈ subtypesAll :=
  ⟨by rw [h], detectL_fst_mem s1.data⟩

theorem classify_total_deterministic_witness :
    detect "Ünïcødé 文字" = detect "Ünïcødé 文字" ∧
    (detect "Ünïcødé 文字").1 ∈ subtypesAll :=
  classify_total_deterministic "Ünïcødé 文字" "Ünïcødé 文字" rfl

/-- C3: the upsert on a draft whose `content_hash` already has a stored row
increments that row's `copy_count` by exactly 1, sets its `created_at` to
the draft's timestamp, leaves every other stored column unchanged, creates
no second row; a miss inserts a fresh row with `copy_count = 1`. -/
theorem upsert_dedup_frame (db : List DbEntry) (e : DbEntry) :
    (∀ row, findByHash db e.content_hash = some row →
      (upsertEntry db e).1 =
        db.map (fun r =>
          if r.id = row.id then
            { r with copy_count := row.copy_count + 1,
                     created_at := e.created_at }
          else r) ∧
      (upsertEntry db e).1.length = db.length ∧
      (upsertEntry db e).2 =
        { e with id := row.id, copy_count := row.copy_count + 1 } ∧
      (∀ r : DbEntry,
        let upd : DbEntry :=
          { r with copy_count := row.copy_count + 1, created_at := e.created_at }
        upd.copy_count = row.copy_count + 1 ∧ upd.created_at = e.created_at ∧
        upd.id = r.id ∧ upd.content_hash = r.content_hash ∧
        upd.content_type = r.content_type ∧ upd.content_data = r.content_data ∧
        upd.source_app = r.source_app ∧ upd.file_path = r.file_path ∧
        upd.is_favorite = r.is_favorite ∧
        upd.content_subtype = r.content_subtype ∧
        upd.metadata = r.metadata ∧ upd.app_bundle_id = r.app_bundle_id)) ∧
    (findByHash db e.content_hash = none →
      upsertEntry db e =
        (db ++ [{ e with copy_count := 1 }], { e with copy_count := 1 })) := by
  constructor
  · intro row hrow
    unfold upsertEntry
    rw [hrow]
    refine ⟨rfl, by simp, rfl, ?_⟩
    intro r
    exact ⟨rfl, rfl, rfl, rfl, rfl, rfl, rfl, rfl, rfl, rfl, rfl, rfl⟩
  · intro hnone
    unfold upsertEntry
    rw [hnone]

/-- A stored row used to witness the upsert claim. -/
def dbRow0 : DbEntry :=
  { id := "id0".data, content_hash := "h".data, content_type := "text".data
    content_data := some "x".data, source_app := some "App".data
    created_at := 5, copy_count := 3, file_path := none, is_favorite := true
    content_subtype := some "plain_text".data, metadata := none
    app_bundle_id := none }

/-- A later draft carrying the same hash, fresh id and timestamp. -/
def draft0 : DbEntry :=
  { dbRow0 with id := "id1".data, created_at := 9, copy_count := 1 }

theorem upsert_dedup_frame_witness :
    (upsertEntry [dbRow0] draft0).1 =
      [dbRow0].map (fun r =>
        if r.id = dbRow0.id then
          { r with copy_count := dbRow0.copy_count + 1,
                   created_at := draft0.created_at }
        else r) ∧
    upsertEntry ([] : List DbEntry) draft0 =
      ([] ++ [{ draft0 with copy_count := 1 }], { draft0 with copy_count := 1 }) :=
  ⟨((upsert_dedup_frame [dbRow0] draft0).1 dbRow0 (by decide)).1,
   (upsert_dedup_frame [] draft0).2 (by decide)⟩

/-- The entry assembled and dispatched by the text pass for a new payload. -/
def textEntryOf (hashFn : List Char → List Char) (appInfo : Option AppInfo)
    (text : List Char) : MonitorEntry :=
  { content_type := "text".data
    content_data := some (trimL text)
    content_hash := hashFn (trimL text)
    source_app := appInfo.map (·.name)
    file_path := none
    content_subtype := some (subtypeStr (detectL (trimL text)).1)
    metadata := (detectL (trimL text)).2.map EntryMetadata.text
    app_bundle_id := appInfo.bind (·.bundle_id) }

/-- The entry assembled and dispatched by the image pass. -/
def imgEntryOf (hashFn : List Nat → List Char) (appInfo : Option AppInfo)
    (bytes : List Nat) (img : ImgSaved) : MonitorEntry :=
  { content_type := "image".data
    content_data := some img.file_path
    content_hash := hashFn bytes
    source_app := appInfo.map (·.name)
    file_path := some img.file_path
    content_subtype := none
    metadata := some (.image img.width img.height img.actual_size)
    app_bundle_id := appInfo.bind (·.bundle_id) }

/-- A repeated hash is suppressed and leaves the slot unchanged,
whatever the configuration or frontmost application. -/
theorem textTick_repeat (hashFn : List Char → List Char) (cfg : AppConfigM)
    (app : Option AppInfo) (last : Option (List Char)) (text : List Char)
    (h : last = some (hashFn (trimL text))) :
    textTick hashFn cfg app last text = (last, none) := by
  unfold textTick
  dsimp only
  by_cases h1 : (trimL text).isEmpty <;> simp [h1]
  by_cases h2 : isB64ImageUrl (trimL text) <;> simp [h2, h]

/-- A fresh hash with no applicable exclusion context (no frontmost app, or
one without a bundle id) is dispatched and the slot updated. -/
theorem textTick_new (hashFn : List Char → List Char) (cfg : AppConfigM)
    (app : Option AppInfo) (last : Option (List Char)) (text : List Char)
    (h1 : (trimL text).isEmpty = false) (h2 : isB64ImageUrl (trimL text) = false)
    (h3 : last ≠ some (hashFn (trimL text)))
    (happ : app = none ∨ ∃ i, app = some i ∧ i.bundle_id = none) :
    textTick hashFn cfg app last text =
      (some (hashFn (trimL text)), some (textEntryOf hashFn app text)) := by
  unfold textTick textEntryOf
  dsimp only
  rcases happ with rfl | ⟨i, rfl, hb⟩
  · simp [h1, h2, h3]
  · simp [h1, h2, h3, hb]

/-- C4: the novelty memory is a single last-hash slot: a snapshot whose
hash equals the slot is never dispatched (slot untouched), a differing
hash is dispatched with the slot updated; A,A yields exactly one dispatch
of A, while A,B,A (B hashing differently) yields two dispatches of A. -/
theorem novelty_single_slot (hashFn : List Char → List Char)
    (cfg cfg2 : AppConfigM) (app2 : Option AppInfo)
    (a b : List Char) (last : Option (List Char))
    (ha1 : (trimL a).isEmpty = false) (ha2 : isB64ImageUrl (trimL a) = false)
    (hb1 : (trimL b).isEmpty = false) (hb2 : isB64ImageUrl (trimL b) = false)
    (hne : hashFn (trimL a) ≠ hashFn (trimL b)) :
    (∀ text last2, last2 = some (hashFn (trimL text)) →
        textTick hashFn cfg2 app2 last2 text = (last2, none)) ∧
    (last ≠ some (hashFn (trimL a)) →
        textTick hashFn cfg none last a =
          (some (hashFn (trimL a)), some (textEntryOf hashFn none a))) ∧
    runTexts hashFn cfg none none [a, a] = [textEntryOf hashFn none a] ∧
    runTexts hashFn cfg none none [a, b, a] =
      [textEntryOf hashFn none a, textEntryOf hashFn none b,
       textEntryOf hashFn none a] := by
  have e1 : ∀ last1 : Option (List Char), last1 ≠ some (hashFn (trimL a)) →
      textTick hashFn cfg none last1 a =
        (some (hashFn (trimL a)), some (textEntryOf hashFn none a)) :=
    fun last1 h => textTick_new hashFn cfg none last1 a ha1 ha2 h (Or.inl rfl)
  have e2 : textTick hashFn cfg none (some (hashFn (trimL b))) a =
      (some (hashFn (trimL a)), some (textEntryOf hashFn none a)) :=
    textTick_new hashFn cfg none _ a ha1 ha2 (by simpa using fun h => hne h.symm)
      (Or.inl rfl)
  have e3 : textTick hashFn cfg none (some (hashFn (trimL a))) b =
      (some (hashFn (trimL b)), some (textEntryOf hashFn none b)) :=
    textTick_new hashFn cfg none _ b hb1 hb2 (by simpa using fun h => hne h)
      (Or.inl rfl)
  refine ⟨fun text last2 h => textTick_repeat hashFn cfg2 app2 last2 text h,
    e1 last, ?_, ?_⟩
  · simp [runTexts, e1 none (by simp),
      textTick_repeat hashFn cfg none (some (hashFn (trimL a))) a rfl]
  · simp [runTexts, e1 none (by simp), e3, e2]

theorem novelty_single_slot_witness :
    runTexts (fun l => l) ⟨[], [], 1⟩ none none ["x".data, "x".data] =
      [textEntryOf (fun l => l) none "x".data] ∧
    runTexts (fun l => l) ⟨[], [], 1⟩ none none ["x".data, "y".data, "x".data] =
      [textEntryOf (fun l => l) none "x".data,
       textEntryOf (fun l => l) none "y".data,
       textEntryOf (fun l => l) none "x".data] :=
  ⟨(novelty_single_slot (fun l => l) ⟨[], [], 1⟩ ⟨[], [], 1⟩ none
      "x".data "y".data none (by decide) (by decide) (by decide) (by decide)
      (by decide)).2.2.1,
   (novelty_single_slot (fun l => l) ⟨[], [], 1⟩ ⟨[], [], 1⟩ none
      "x".data "y".data none (by decide) (by decide) (by decide) (by decide)
      (by decide)).2.2.2⟩

/-- C9: on a text tick the slot is overwritten before the exclusion-list
and size-limit checks; a vetoed change (excluded app or oversize text)
dispatches nothing but leaves its hash in the slot, so the identical text
on any later tick — from any application, under any configuration — is
suppressed as a repeat. -/
theorem veto_poisons_slot (hashFn : List Char → List Char)
    (cfg cfg2 : AppConfigM) (info : AppInfo) (b : List Char)
    (app2 : Option AppInfo) (last : Option (List Char)) (text : List Char)
    (h1 : (trimL text).isEmpty = false)
    (h2 : isB64ImageUrl (trimL text) = false)
    (h3 : last ≠ some (hashFn (trimL text)))
    (hb : info.bundle_id = some b)
    (hveto : isAppExcluded cfg b = true ∨
             isTextSizeValid cfg (trimL text) = false) :
    textTick hashFn cfg (some info) last text =
      (some (hashFn (trimL text)), none) ∧
    textTick hashFn cfg2 app2 (some (hashFn (trimL text))) text =
      (some (hashFn (trimL text)), none) := by
  constructor
  · unfold textTick
    dsimp only
    rcases hveto with hv | hv <;> simp [h1, h2, h3, hb, hv]
  · exact textTick_repeat hashFn cfg2 app2 _ text rfl

theorem veto_poisons_slot_witness :
    textTick (fun l => l) ⟨["com.ex".data], [], 1⟩
        (some ⟨"Ex".data, some "com.ex".data⟩) none "secret".data =
      (some "secret".data, none) ∧
    textTick (fun l => l) ⟨[], [], 1⟩ none (some "secret".data)
        "secret".data =
      (some "secret".data, none) :=
  veto_poisons_slot (fun l => l) ⟨["com.ex".data], [], 1⟩ ⟨[], [], 1⟩
    ⟨"Ex".data, some "com.ex".data⟩ "com.ex".data none none "secret".data
    (by decide) (by decide) (by decide) (by decide) (Or.inl (by decide))

/-- C10: the exclusion and size checks run only under a known frontmost
application with a bundle id; without one, text is classified and
dispatched regardless of configuration; the image pass applies the
exclusion the same way and never consults the size limit. -/
theorem checks_need_bundle_id (hashFnT : List Char → List Char)
    (hashFnB : List Nat → List Char) (cfg : AppConfigM)
    (app : Option AppInfo) (last : Option (List Char))
    (text : List Char) (bytes : List Nat) (proc : Option ImgSaved)
    (happ : app = none ∨ ∃ i, app = some i ∧ i.bundle_id = none) :
    ((trimL text).isEmpty = false → isB64ImageUrl (trimL text) = false →
      last ≠ some (hashFnT (trimL text)) →
      textTick hashFnT cfg app last text =
        (some (hashFnT (trimL text)), some (textEntryOf hashFnT app text))) ∧
    (last ≠ some (hashFnB bytes) →
      imageTick hashFnB cfg app last bytes proc =
        (some (hashFnB bytes), proc.map (imgEntryOf hashFnB app bytes))) ∧
    (∀ (a2 : Option AppInfo) (l2 : Option (List Char)) (q1 q2 : ℚ)
       (ex1 ex2 : List (List Char)),
      imageTick hashFnB ⟨ex1, ex2, q1⟩ a2 l2 bytes proc =
      imageTick hashFnB ⟨ex1, ex2, q2⟩ a2 l2 bytes proc) := by
  refine ⟨fun h1 h2 h3 => textTick_new hashFnT cfg app last text h1 h2 h3 happ,
    ?_, ?_⟩
  · intro h3
    unfold imageTick imgEntryOf
    rcases happ with rfl | ⟨i, rfl, hb⟩
    · cases proc <;> simp [h3]
    · cases proc <;> simp [h3, hb]
  · intro a2 l2 q1 q2 ex1 ex2
    unfold imageTick
    rfl

theorem checks_need_bundle_id_witness :
    textTick (fun l => l) ⟨["com.ex".data], [], 0⟩ none none "big".data =
      (some "big".data, some (textEntryOf (fun l => l) none "big".data)) ∧
    imageTick (fun _ => "ih".data) ⟨["com.ex".data], [], 0⟩ none none [1, 2]
        (some ⟨1, 1, "imgs/a.png".data, 9⟩) =
      (some "ih".data,
       some (imgEntryOf (fun _ => "ih".data) none [1, 2]
         ⟨1, 1, "imgs/a.png".data, 9⟩)) :=
  ⟨(checks_need_bundle_id (fun l => l) (fun _ => "ih".data)
      ⟨["com.ex".data], [], 0⟩ none none "big".data [1, 2]
      (some ⟨1, 1, "imgs/a.png".data, 9⟩) (Or.inl rfl)).1
      (by decide) (by decide) (by decide),
   (checks_need_bundle_id (fun l => l) (fun _ => "ih".data)
      ⟨["com.ex".data], [], 0⟩ none none "big".data [1, 2]
      (some ⟨1, 1, "imgs/a.png".data, 9⟩) (Or.inl rfl)).2.1
      (by decide)⟩

theorem bgraSwap_length : ∀ l : List Nat, (bgraSwap l).length = l.length
  | _ :: _ :: _ :: _ :: rest => by
      simp [bgraSwap, bgraSwap_length rest]
  | [] => rfl
  | [_] => rfl
  | [_, _] => rfl
  | [_, _, _] => rfl

/-- C5 counterexample: the claim as stated fails.  `expected_size` is
computed in `u32`; at W = H = 32768 the product W·H·4 = 2^32 wraps to 0,
so a buffer of exactly W·H·4 bytes does not take the packed-RGBA fast
path. -/
theorem rgba_fast_path_counterexample :
    (List.replicate (2 ^ 32) (0 : Nat)).length = 32768 * 32768 * 4 ∧
    ingestPath (List.replicate (2 ^ 32) (0 : Nat)).length 32768 32768 =
      IngestPath.standard := by
  constructor
  · rw [List.length_replicate]
    norm_num
  · rw [List.length_replicate]
    unfold ingestPath
    norm_num

/-- C5 (amended): for every buffer and reported dimensions W, H with
`len = W*H*4` and no `u32` overflow (`W*H*4 < 2^32`), ingestion takes the
packed-RGBA fast path — never the codec or inference paths — and the
pixel buffer it builds and stores is exactly W×H. -/
theorem rgba_fast_path (data : List Nat) (w h : Nat)
    (hlen : data.length = w * h * 4) (hbound : w * h * 4 < 2 ^ 32) :
    ingestPath data.length w h = IngestPath.rawFast ∧
    ∃ img, processRawRgba data w h = some img ∧
      img.width = w ∧ img.height = h := by
  constructor
  · unfold ingestPath
    rw [hlen, Nat.mod_eq_of_lt hbound]
    simp
  · have hconv : ∀ converted : List Nat, converted.length = data.length →
        fromRawRgba w h converted = some ⟨w, h, converted⟩ := by
      intro converted hc
      unfold fromRawRgba
      rw [if_pos (by rw [hc, hlen]; ring_nf; omega)]
    unfold processRawRgba
    dsimp only
    by_cases hs : needsBgraSwap data
    · rw [hs]
      rw [if_pos rfl, hconv (bgraSwap data) (bgraSwap_length data)]
      exact ⟨_, rfl, rfl, rfl⟩
    · rw [Bool.eq_false_iff.mpr hs]
      rw [if_neg (by simp), hconv data rfl]
      exact ⟨_, rfl, rfl, rfl⟩

theorem rgba_fast_path_witness :
    (List.replicate 48 (0 : Nat)).length = 4 * 3 * 4 ∧
    ingestPath (List.replicate 48 (0 : Nat)).length 4 3 = IngestPath.rawFast ∧
    ∃ img, processRawRgba (List.replicate 48 (0 : Nat)) 4 3 = some img ∧
      img.width = 4 ∧ img.height = 3 := by
  refine ⟨by simp, ?_⟩
  have := rgba_fast_path (List.replicate 48 (0 : Nat)) 4 3 (by simp) (by decide)
  exact this

theorem commonDimensions_products_distinct :
    commonDimensions.Pairwise (fun a b => a.1 * a.2 ≠ b.1 * b.2) := by
  decide

theorem commonDimensions_min_area :
    ∀ p ∈ commonDimensions, 4 ≤ p.1 * p.2 := by decide

theorem find_eq_of_pairwise_ne {l : List (Nat × Nat)} {x : Nat × Nat}
    (hmem : x ∈ l) (hdist : l.Pairwise fun a b => a.1 * a.2 ≠ b.1 * b.2) :
    l.find? (fun p => p.1 * p.2 = x.1 * x.2) = some x := by
  induction l with
  | nil => cases hmem
  | cons a tl ih =>
      rcases List.mem_cons.mp hmem with rfl | hx
      · exact List.find?_cons_of_pos _ (by simp)
      · have hne : a.1 * a.2 ≠ x.1 * x.2 :=
          (List.pairwise_cons.mp hdist).1 x hx
        rw [List.find?_cons_of_neg _ (by simpa using hne)]
        exact ih hx (List.pairwise_cons.mp hdist).2

/-- C6: a headerless buffer whose length is 4·(W·H) for a curated table
entry (W, H) is resolved by the table lookup — tried before the scaled,
perfect-square and factor-search strategies — to exactly (W, H). -/
theorem dimension_table_lookup (w h : Nat) (data : List Nat)
    (hmem : (w, h) ∈ commonDimensions)
    (hlen : data.length = 4 * (w * h)) :
    detectRawRgbaData data = some (w, h) := by
  have harea : 4 ≤ w * h := commonDimensions_min_area (w, h) hmem
  have hfind :
      commonDimensions.find? (fun p => p.1 * p.2 = w * h) = some (w, h) :=
    find_eq_of_pairwise_ne hmem commonDimensions_products_distinct
  unfold detectRawRgbaData
  rw [if_neg (by omega), hlen]
  have hq : 4 * (w * h) / 4 = w * h := by omega
  rw [hq]
  dsimp only
  rw [hfind]

theorem dimension_table_lookup_witness :
    (1920, 1080) ∈ commonDimensions ∧
    detectRawRgbaData (List.replicate (4 * (1920 * 1080)) (0 : Nat)) =
      some (1920, 1080) :=
  ⟨by decide,
   dimension_table_lookup 1920 1080 _ (by decide)
     (by rw [List.length_replicate])⟩



theorem isPrefixL_head {a : Char} {as l : List Char}
    (h : isPrefixL (a :: as) l = true) : l.head? = some a := by
  cases l with
  | nil => simp [isPrefixL] at h
  | cons b bs =>
      simp only [isPrefixL, Bool.and_eq_true, decide_eq_true_eq] at h
      simp [h.1]

theorem stripLit_head {c : Char} {cs l r : List Char}
    (h : stripLit (c :: cs) l = some r) : l.head? = some c := by
  cases l with
  | nil => simp [stripLit] at h
  | cons b bs =>
      simp only [stripLit] at h
      by_cases hb : b = c
      · simp [hb]
      · rw [if_neg hb] at h; cases h

theorem head?_mem {l : List Char} {a : Char} (h : l.head? = some a) : a ∈ l := by
  cases l with
  | nil => cases h
  | cons b bs =>
      injection h with h
      exact h ▸ List.mem_cons_self b bs

theorem parseI64L_chars {l : List Char} {n : Int} (h : parseI64L l = some n) :
    ∀ c ∈ l, isDigitC c = true ∨ c = '+' ∨ c = '-' := by
  cases l with
  | nil => intro c hc; cases hc
  | cons a as =>
      intro c hc
      unfold parseI64L at h
      dsimp only at h
      by_cases hs : (a :: as).head? = some '+' ∨ (a :: as).head? = some '-'
      · rw [if_pos hs] at h
        simp only [List.head?_cons, Option.some.injEq] at hs
        simp only [List.drop_succ_cons, List.drop_zero] at h
        split at h
        · rename_i hcond
          rcases List.mem_cons.mp hc with rfl | hcas
          · rcases hs with ha | ha
            · exact Or.inr (Or.inl ha)
            · exact Or.inr (Or.inr ha)
          · have hall := hcond.2
            rw [List.all_eq_true] at hall
            exact Or.inl (hall c hcas)
        · cases h
      · rw [if_neg hs] at h
        split at h
        · rename_i hcond
          have hall := hcond.2
          rw [List.all_eq_true] at hall
          exact Or.inl (hall c hc)
        · cases h

theorem not_mem_of_intChars {l : List Char}
    (hch : ∀ c ∈ l, isDigitC c = true ∨ c = '+' ∨ c = '-')
    {x : Char} (hx1 : isDigitC x = false) (hx2 : x ≠ '+') (hx3 : x ≠ '-') :
    x ∉ l := by
  intro hmem
  rcases hch x hmem with hd | h2 | h2
  · rw [hd] at hx1; cases hx1
  · exact hx2 h2
  · exact hx3 h2

theorem dropWhile_eq_self_of_false {p : Char → Bool} {l : List Char}
    (h : ∀ c ∈ l, p c = false) : l.dropWhile p = l := by
  cases l with
  | nil => rfl
  | cons a as => simp [List.dropWhile_cons, h a (List.mem_cons_self a as)]

theorem trimL_eq_self {l : List Char} (h : ∀ c ∈ l, isWsC c = false) :
    trimL l = l := by
  unfold trimL
  rw [dropWhile_eq_self_of_false h,
      dropWhile_eq_self_of_false (fun c hc => h c (List.mem_reverse.mp hc)),
      List.reverse_reverse]

theorem isWsC_false_of_intChar {c : Char}
    (h : isDigitC c = true ∨ c = '+' ∨ c = '-') : isWsC c = false := by
  rcases h with hd | rfl | rfl
  · cases hw : isWsC c
    · rfl
    · exfalso
      simp only [isWsC, Bool.or_eq_true, decide_eq_true_eq] at hw
      rcases hw with ((((rfl | rfl) | rfl) | rfl) | rfl) | rfl <;>
        exact absurd hd (by decide)
  · rfl
  · rfl


theorem hslRE_h : RE.mustContain Regexes.hslRE 'h' = true := by decide

theorem isUrlL_false_of_intChars {l : List Char}
    (hch : ∀ c ∈ l, isDigitC c = true ∨ c = '+' ∨ c = '-') :
    isUrlL l = false := by
  have hdot : '.' ∉ l := not_mem_of_intChars hch (by decide) (by decide) (by decide)
  have hat : '@' ∉ l := not_mem_of_intChars hch (by decide) (by decide) (by decide)
  have hpre : ∀ (a : Char) (as : List Char), a = 'h' ∨ a = 'f' →
      isPrefixL (a :: as) l = false := by
    intro a as ha
    cases hp : isPrefixL (a :: as) l
    · rfl
    · exfalso
      have hmem : a ∈ l := head?_mem (isPrefixL_head hp)
      rcases hch a hmem with hd | h2 | h2
      · rcases ha with rfl | rfl <;> exact absurd hd (by decide)
      · rcases ha with rfl | rfl <;> cases h2
      · rcases ha with rfl | rfl <;> cases h2
  unfold isUrlL
  have e1 : ("http://".data) = 'h' :: "ttp://".data := rfl
  have e2 : ("https://".data) = 'h' :: "ttps://".data := rfl
  have e3 : ("ftp://".data) = 'f' :: "tp://".data := rfl
  rw [e1, e2, e3, hpre 'h' _ (Or.inl rfl), hpre 'h' _ (Or.inl rfl),
      hpre 'f' _ (Or.inr rfl)]
  simp only [Bool.or_self, Bool.or_false, Bool.false_eq_true, if_false]
  rw [if_neg hat]
  exact RE.rhead_eq_false Regexes.domainRE_dot hdot

theorem isIpAddressL_false_of {l : List Char}
    (hdot : '.' ∉ l) (hcolon : ':' ∉ l) : isIpAddressL l = false := by
  unfold isIpAddressL
  rw [RE.rmatch_eq_false Regexes.ipv4RE_dot hdot,
      RE.rmatch_eq_false Regexes.ipv6RE_colon hcolon]
  rfl

theorem isEmailL_false_of {l : List Char} (hat : '@' ∉ l) :
    isEmailL l = false :=
  RE.rmatch_eq_false Regexes.emailRE_at hat

theorem head?_ne_of_not_mem {l : List Char} {a : Char} (h : a ∉ l) :
    l.head? ≠ some a := fun he => h (head?_mem he)

theorem detectColorL_none_of_intChars {l : List Char}
    (hch : ∀ c ∈ l, isDigitC c = true ∨ c = '+' ∨ c = '-') :
    detectColorL l = none := by
  have hhash : '#' ∉ l := not_mem_of_intChars hch (by decide) (by decide) (by decide)
  have hr : 'r' ∉ l := not_mem_of_intChars hch (by decide) (by decide) (by decide)
  have hh : 'h' ∉ l := not_mem_of_intChars hch (by decide) (by decide) (by decide)
  have hrgb : rgbCaptures l = none := by
    unfold rgbCaptures
    cases hs : stripLit ['r', 'g', 'b'] l
    · rfl
    · exact absurd (head?_mem (stripLit_head hs)) hr
  unfold detectColorL
  rw [if_neg (fun hc => head?_ne_of_not_mem hhash hc.1)]
  unfold detectColorRgbHsl
  rw [hrgb]
  rw [RE.rmatch_eq_false hslRE_h hh]
  simp

theorem isJsonL_false_of {l : List Char}
    (hbrace : '{' ∉ l) (hbrack : '[' ∉ l) (htrim : trimL l = l) :
    isJsonL l = false := by
  unfold isJsonL
  rw [htrim]
  rw [if_neg ?_]
  rintro (⟨h1, _⟩ | ⟨h1, _⟩)
  · exact head?_ne_of_not_mem hbrace h1
  · exact head?_ne_of_not_mem hbrack h1

theorem isCommandL_false_of_intChars {l : List Char}
    (hch : ∀ c ∈ l, isDigitC c = true ∨ c = '+' ∨ c = '-') :
    isCommandL l = false := by
  cases hcmd : isCommandL l
  · rfl
  · exfalso
    unfold isCommandL at hcmd
    rw [List.any_eq_true] at hcmd
    obtain ⟨cmd, hmem, hpref⟩ := hcmd
    have hshape : ∀ cmd ∈ commands, cmd ≠ [] ∧
        isDigitC (cmd.headD 'a') = false ∧ cmd.headD 'a' ≠ '+' ∧
        cmd.headD 'a' ≠ '-' := by decide
    obtain ⟨hne, hc1, hc2, hc3⟩ := hshape cmd hmem
    cases cmd with
    | nil => exact hne rfl
    | cons c cs =>
        simp only [List.headD_cons] at hc1 hc2 hc3
        have hcl : c ∈ l := head?_mem (isPrefixL_head hpref)
        rcases hch c hcl with hd | h2 | h2
        · rw [hd] at hc1; cases hc1
        · exact hc2 h2
        · exact hc3 h2

/-- C7: a string parsing as an integer n classifies as Timestamp with
`unix_ms = n*1000` in the seconds range [946684800, 4102444800) and
`unix_ms = n` in the milliseconds range [946684800000, 7258118400000),
exactly one timestamp field populated. -/
theorem timestamp_integer_ranges (s : String) (n : Int)
    (hp : parseI64L s.data = some n) :
    (946684800 ≤ n ∧ n < 4102444800 →
      detect s =
        (.timestamp, some { timestamp_formats := some ⟨some (n * 1000), none, none⟩ })) ∧
    (946684800000 ≤ n ∧ n < 7258118400000 →
      detect s =
        (.timestamp, some { timestamp_formats := some ⟨some n, none, none⟩ })) := by
  have hch := parseI64L_chars hp
  have htrim : trimL s.data = s.data :=
    trimL_eq_self (fun c hc => isWsC_false_of_intChar (hch c hc))
  have hurl := isUrlL_false_of_intChars hch
  have hip := isIpAddressL_false_of
    (not_mem_of_intChars hch (by decide) (by decide) (by decide))
    (not_mem_of_intChars hch (by decide) (by decide) (by decide))
  have hemail := isEmailL_false_of
    (not_mem_of_intChars hch (by decide) (by decide) (by decide))
  have hcolor := detectColorL_none_of_intChars hch
  have hjson := isJsonL_false_of
    (not_mem_of_intChars hch (by decide) (by decide) (by decide))
    (not_mem_of_intChars hch (by decide) (by decide) (by decide)) htrim
  have hcmd := isCommandL_false_of_intChars hch
  constructor
  · rintro ⟨hlo, hhi⟩
    have hts : detectTimestampL s.data =
        some { unix_ms := some (n * 1000), iso8601 := none, date_string := none } := by
      unfold detectTimestampL
      rw [hp]
      dsimp only
      rw [if_pos ⟨hlo, hhi⟩]
    unfold detect detectL
    dsimp only
    simp [htrim, hurl, hip, hemail, hcolor, hjson, hcmd, hts]
  · rintro ⟨hlo, hhi⟩
    have hts : detectTimestampL s.data =
        some { unix_ms := some n, iso8601 := none, date_string := none } := by
      unfold detectTimestampL
      rw [hp]
      dsimp only
      rw [if_neg (fun hc => by omega), if_pos ⟨hlo, hhi⟩]
    unfold detect detectL
    dsimp only
    simp [htrim, hurl, hip, hemail, hcolor, hjson, hcmd, hts]

theorem timestamp_integer_ranges_witness :
    parseI64L "1700000000".data = some 1700000000 ∧
    detect "1700000000" =
      (.timestamp, some { timestamp_formats := some ⟨some 1700000000000, none, none⟩ }) := by
  refine ⟨by decide, ?_⟩
  have h := (timestamp_integer_ranges "1700000000" 1700000000 (by decide)).1
    (by constructor <;> decide)
  simpa using h



theorem detect_base64_inv {l : List Char} {md : ContentMetadata}
    (h : detectL l = (.base64, some md)) :
    ∃ m, detectBase64L (trimL l) = some m ∧
      md = { base64_metadata := some m } := by
  unfold detectL at h
  dsimp only at h
  by_cases h1 : isUrlL (trimL l) = true
  · rw [if_pos h1] at h
    exact ContentSubType.noConfusion (congrArg Prod.fst h)
  rw [if_neg h1] at h
  by_cases h2 : isIpAddressL (trimL l) = true
  · rw [if_pos h2] at h
    exact ContentSubType.noConfusion (congrArg Prod.fst h)
  rw [if_neg h2] at h
  by_cases h3 : isEmailL (trimL l) = true
  · rw [if_pos h3] at h
    exact ContentSubType.noConfusion (congrArg Prod.fst h)
  rw [if_neg h3] at h
  cases h4 : detectColorL (trimL l) with
  | some cf =>
      rw [h4] at h
      exact ContentSubType.noConfusion (congrArg Prod.fst h)
  | none =>
  rw [h4] at h
  dsimp only at h
  by_cases h5 : isJsonL (trimL l) = true
  · rw [if_pos h5] at h
    exact ContentSubType.noConfusion (congrArg Prod.fst h)
  rw [if_neg h5] at h
  by_cases h6 : isCommandL (trimL l) = true
  · rw [if_pos h6] at h
    exact ContentSubType.noConfusion (congrArg Prod.fst h)
  rw [if_neg h6] at h
  cases h7 : detectTimestampL (trimL l) with
  | some tf =>
      rw [h7] at h
      exact ContentSubType.noConfusion (congrArg Prod.fst h)
  | none =>
  rw [h7] at h
  dsimp only at h
  by_cases h8 : isMarkdownL (trimL l) = true
  · rw [if_pos h8] at h
    exact ContentSubType.noConfusion (congrArg Prod.fst h)
  rw [if_neg h8] at h
  cases h9 : detectBase64L (trimL l) with
  | some bm =>
      rw [h9] at h
      dsimp only at h
      refine ⟨bm, rfl, ?_⟩
      have := (Prod.mk.injEq _ _ _ _).mp h
      exact (Option.some.inj this.2).symm
  | none =>
      rw [h9] at h
      dsimp only at h
      cases h10 : detectCodeLanguageL (trimL l) with
      | some lang =>
          rw [h10] at h
          exact ContentSubType.noConfusion (congrArg Prod.fst h)
      | none =>
          rw [h10] at h
          exact ContentSubType.noConfusion (congrArg Prod.fst h)

theorem detectBase64L_gates {l : List Char} {m : Base64Metadata}
    (h : detectBase64L l = some m) :
    byteLenL (trimEndEq (b64Cleaned l)) % 4 ≠ 1 ∧
    ∃ decoded, b64Decode (b64Cleaned l) = some decoded ∧
      m.estimated_original_size = decoded.length ∧
      m.encoded_size = byteLenL (b64Cleaned l) ∧
      (decoded.length ≤ 10 →
        1 - 1 / 2 ≤ m.encoding_efficiency ∧ m.encoding_efficiency ≤ 1 + 1 / 2) ∧
      (10 < decoded.length →
        1 - 1 / 5 ≤ m.encoding_efficiency ∧ m.encoding_efficiency ≤ 1 + 1 / 5) ∧
      m.encoding_efficiency =
        b64SizeFrac (byteLenL (b64Cleaned l)) decoded.length := by
  unfold detectBase64L at h
  split at h
  · cases h
  split at h
  · cases h
  split at h
  · cases h
  split at h
  · cases h
  split at h
  · cases h
  split at h
  · cases h
  split at h
  · cases h
  split at h
  · cases h
  split at h
  · cases h
  rename_i hmod
  split at h
  · cases h
  rename_i decoded hdec
  split at h
  · cases h
  rename_i hguard
  have hm := Option.some.inj h
  subst hm
  push_neg at hguard
  refine ⟨hmod, decoded, hdec, rfl, rfl, ?_, ?_, rfl⟩
  · intro hd
    have hlb : b64LowerBound decoded.length = 1 - 1 / 2 := by
      unfold b64LowerBound
      rw [if_pos hd, Rat.mkRat_eq_div]
      norm_num
    have hub : b64UpperBound decoded.length = 1 + 1 / 2 := by
      unfold b64UpperBound
      rw [if_pos hd, Rat.mkRat_eq_div]
      norm_num
    exact ⟨hlb ▸ hguard.1, hub ▸ hguard.2⟩
  · intro hd
    have hlb : b64LowerBound decoded.length = 1 - 1 / 5 := by
      unfold b64LowerBound
      rw [if_neg (by omega), Rat.mkRat_eq_div]
      norm_num
    have hub : b64UpperBound decoded.length = 1 + 1 / 5 := by
      unfold b64UpperBound
      rw [if_neg (by omega), Rat.mkRat_eq_div]
      norm_num
    exact ⟨hlb ▸ hguard.1, hub ▸ hguard.2⟩

/-- C8: every string classified as Base64 satisfies the length and
tolerance gates: the stripped length minus trailing padding is not 1 mod
4, the standard base64 decode succeeds, the stripped-to-expected length
ratio is within ±50% for decoded sizes ≤ 10 bytes and ±20% otherwise,
`estimated_original_size` is the decoded byte count and `encoded_size`
the stripped length; `classify("YWI=")` yields 2 and 4. -/
theorem base64_acceptance_gates (s : String) (m : Base64Metadata)
    (md : ContentMetadata) (h : detect s = (.base64, some md))
    (hm : md.base64_metadata = some m) :
    (byteLenL (trimEndEq (b64Cleaned (trimL s.data))) % 4 ≠ 1 ∧
     ∃ decoded, b64Decode (b64Cleaned (trimL s.data)) = some decoded ∧
       m.estimated_original_size = decoded.length ∧
       m.encoded_size = byteLenL (b64Cleaned (trimL s.data)) ∧
       (decoded.length ≤ 10 →
         1 - 1 / 2 ≤ m.encoding_efficiency ∧ m.encoding_efficiency ≤ 1 + 1 / 2) ∧
       (10 < decoded.length →
         1 - 1 / 5 ≤ m.encoding_efficiency ∧ m.encoding_efficiency ≤ 1 + 1 / 5) ∧
       m.encoding_efficiency =
         b64SizeFrac (byteLenL (b64Cleaned (trimL s.data))) decoded.length) ∧
    detect "YWI=" =
      (.base64, some { base64_metadata := some ⟨2, 4, some "未知格式".data, 1⟩ }) := by
  obtain ⟨m2, hdet, hmd⟩ := detect_base64_inv h
  have hm2 : m2 = m := by
    rw [hmd] at hm
    exact Option.some.inj hm
  subst hm2
  exact ⟨detectBase64L_gates hdet, by decide⟩

theorem base64_acceptance_gates_witness :
    byteLenL (trimEndEq (b64Cleaned (trimL "YWI=".data))) % 4 ≠ 1 ∧
    ∃ decoded, b64Decode (b64Cleaned (trimL "YWI=".data)) = some decoded ∧
      (Base64Metadata.mk 2 4 (some "未知格式".data) 1).estimated_original_size =
        decoded.length ∧
      (Base64Metadata.mk 2 4 (some "未知格式".data) 1).encoded_size =
        byteLenL (b64Cleaned (trimL "YWI=".data)) ∧
      (decoded.length ≤ 10 →
        1 - 1 / 2 ≤ (Base64Metadata.mk 2 4 (some "未知格式".data) 1).encoding_efficiency ∧
        (Base64Metadata.mk 2 4 (some "未知格式".data) 1).encoding_efficiency ≤ 1 + 1 / 2) ∧
      (10 < decoded.length →
        1 - 1 / 5 ≤ (Base64Metadata.mk 2 4 (some "未知格式".data) 1).encoding_efficiency ∧
        (Base64Metadata.mk 2 4 (some "未知格式".data) 1).encoding_efficiency ≤ 1 + 1 / 5) ∧
      (Base64Metadata.mk 2 4 (some "未知格式".data) 1).encoding_efficiency =
        b64SizeFrac (byteLenL (b64Cleaned (trimL "YWI=".data))) decoded.length :=
  (base64_acceptance_gates "YWI=" (Base64Metadata.mk 2 4 (some "未知格式".data) 1)
    { base64_metadata := some (Base64Metadata.mk 2 4 (some "未知格式".data) 1) }
    (by decide) (by decide)).1

end Clipboard
